import Mathlib

/-!
# git-copy: verification of the scrub rules, export filter, validator and sync driver

This file is a shallow embedding of the core of the `git-copy` repository
(package `scrub`: `rules.go` and the export filter; `validate.go`; and the
`sync` driver in the provider file) together with theorems settling the
frozen claims about it.

Modelling conventions:
* Go strings and byte slices are modelled as `List Char` (`Str`); the ASCII
  fragment is what every claim and the source's own case logic (`'A'..'Z'`,
  `'a'..'z'` range checks) exercise.
* Go maps used as dictionaries (`markMap`, `refRewriteMap`, ...) are
  association lists with last-write-wins insertion.
* The Go `map` ranged over in `Compile` for the extra replacements is
  modelled as a list of pairs in *some* iteration order; Go does not
  specify (and actively randomises) that order, so theorems quantify over
  the order where it matters.
* `path.Match` errors are conflated with "no match": every caller in the
  repository (`matchSegs`) treats `err != nil` exactly like `!ok`.
* Fallible Go functions returning `error` are modelled with `Except Str`.
-/

abbrev Str := List Char

instance {ε α : Type} [DecidableEq ε] [DecidableEq α] : DecidableEq (Except ε α) := fun x y =>
  match x, y with
  | .ok a, .ok b => if h : a = b then isTrue (by rw [h]) else isFalse (by simp [h])
  | .error a, .error b => if h : a = b then isTrue (by rw [h]) else isFalse (by simp [h])
  | .ok _, .error _ => isFalse (by simp)
  | .error _, .ok _ => isFalse (by simp)

namespace GitCopy

/-- ASCII test for `r >= 'A' && r <= 'Z'`, as written in `applyCasePattern`. -/
def isUpperA (c : Char) : Bool := 'A' ≤ c && c ≤ 'Z'

/-- ASCII test for `r >= 'a' && r <= 'z'`, as written in `applyCasePattern`. -/
def isLowerA (c : Char) : Bool := 'a' ≤ c && c ≤ 'z'

/-- ASCII lowering of one character (the fragment of `strings.ToLower` the
claims exercise). -/
def lowerA (c : Char) : Char :=
  if isUpperA c then Char.ofNat (c.toNat + 32) else c

/-- ASCII raising of one character (the fragment of `strings.ToUpper` the
claims exercise). -/
def upperA (c : Char) : Char :=
  if isLowerA c then Char.ofNat (c.toNat - 32) else c

def toLowerS (s : Str) : Str := s.map lowerA

def toUpperS (s : Str) : Str := s.map upperA

/-- ASCII whitespace, for `strings.TrimSpace`. -/
def isSpaceA (c : Char) : Bool :=
  c == ' ' || c == '\t' || c == '\n' || c == '\x0b' || c == '\x0c' || c == '\r'

/-- `strings.TrimSpace` (ASCII fragment). -/
def trimS (s : Str) : Str :=
  ((s.dropWhile isSpaceA).reverse.dropWhile isSpaceA).reverse

/-- `strings.HasPrefix`. -/
def hasPre (pat s : Str) : Bool := pat.isPrefixOf s

/-- `strings.TrimPrefix`: drop one leading occurrence of `pat`. -/
def trimPre (pat s : Str) : Str := if hasPre pat s then s.drop pat.length else s

/-- Case-insensitive (ASCII) prefix test, the primitive under `(?i)` literal
regexp matching. -/
def ciPre (pat s : Str) : Bool :=
  match pat, s with
  | [], _ => true
  | _ :: _, [] => false
  | a :: as, b :: bs => lowerA a == lowerA b && ciPre as bs

/-- Case-insensitive (ASCII) substring containment:
`bytes.Contains(bytes.ToLower s, bytes.ToLower pat)` /
`strings.Contains(strings.ToLower s, strings.ToLower pat)`. -/
def containsCI (pat s : Str) : Bool :=
  match s with
  | [] => ciPre pat []
  | _ :: bs => ciPre pat s || containsCI pat bs

/-- `applyCasePattern` from `rules.go`: apply the case pattern of `mtch` to
`replacement`. -/
def applyCasePattern (mtch replacement : Str) : Str :=
  if mtch.length = 0 then replacement
  else
    let allLower := mtch.all fun r => !isUpperA r
    let allUpper := mtch.all fun r => !isLowerA r
    if allLower then toLowerS replacement
    else if allUpper then toUpperS replacement
    else
      match mtch with
      | [] => replacement
      | r0 :: rest =>
        if isUpperA r0 && rest.all (fun r => !isUpperA r) then
          -- title case: capitalize first letter, lowercase rest
          match toLowerS replacement with
          | [] => []
          | c :: cs => (if isLowerA c then upperA c else c) :: cs
        else replacement

/-- One pass of `privateRe.ReplaceAllStringFunc` / `re.ReplaceAllFunc` for the
case-insensitive literal pattern `pat`: leftmost, non-overlapping matches,
each replaced by `applyCasePattern match repl`. -/
def replaceCI (pat repl : Str) : Str → Str
  | [] => []
  | c :: rest =>
    if h : pat ≠ [] ∧ ciPre pat (c :: rest) then
      applyCasePattern ((c :: rest).take pat.length) repl
        ++ replaceCI pat repl ((c :: rest).drop pat.length)
    else
      c :: replaceCI pat repl rest
termination_by s => s.length
decreasing_by
  · have hp : 0 < pat.length := List.length_pos.mpr h.1
    simp only [List.length_drop, List.length_cons]
    omega
  · simp

/-! ## Path normalization and glob matching (`rules.go`) -/

/-- `NonNegotiableDirs` from `rules.go`. -/
def NonNegotiableDirs : List Str := [".git-copy".toList, ".claude".toList]

/-- `normPath` from `rules.go`: trim whitespace, drop one leading `./`,
convert backslashes to forward slashes. -/
def normPath (p : Str) : Str :=
  let p := trimS p
  if p = [] then []
  else (trimPre "./".toList p).map fun c => if c = '\\' then '/' else c

/-- `IsNonNegotiablePath` from `rules.go`. -/
def IsNonNegotiablePath (p : Str) : Bool :=
  let p := normPath p
  NonNegotiableDirs.any fun dir => p == dir || hasPre (dir ++ ['/']) p

/-- `nonNegotiablePatterns` from `rules.go`. -/
def nonNegotiablePatterns : List Str :=
  NonNegotiableDirs.map fun dir => dir ++ "/**".toList

/-- `isNonNegotiablePattern` from `rules.go`. -/
def isNonNegotiablePattern (p : Str) : Bool :=
  NonNegotiableDirs.any fun dir => p == dir ++ "/**".toList

/-- `getEsc` from Go `path/match.go` (used by `path.Match`), with `none` for
`ErrBadPattern`. -/
def getEsc : Str → Option (Char × Str)
  | [] => none
  | '-' :: _ => none
  | ']' :: _ => none
  | '\\' :: [] => none
  | '\\' :: c :: rest2 => if rest2 = [] then none else some (c, rest2)
  | c :: rest => if rest = [] then none else some (c, rest)

/-- Termination measure fact for `classRanges`: `getEsc` always consumes
pattern characters.  (Stated as a `def` because it belongs to the
definition layer: it only serves the termination proof below.) -/
def getEsc_lt {p : Str} {c : Char} {rest : Str} (h : getEsc p = some (c, rest)) :
    rest.length < p.length := by
  rw [getEsc.eq_def] at h
  split at h
  · exact absurd h (by simp)
  · exact absurd h (by simp)
  · exact absurd h (by simp)
  · exact absurd h (by simp)
  · split at h
    · exact absurd h (by simp)
    · cases h; simp; omega
  · split at h
    · exact absurd h (by simp)
    · cases h; simp

/-- The range-parsing loop of the `'['` case of Go `path.Match`'s
`matchChunk`: `r` is the character being matched; returns whether `r` lies
in the class and the remaining pattern, or `none` for `ErrBadPattern`. -/
def classRanges (r : Char) (matched : Bool) (nrange : Nat) (p : Str) : Option (Bool × Str) :=
  if p.head? = some ']' ∧ 0 < nrange then some (matched, p.tail)
  else
    match hg : getEsc p with
    | none => none
    | some (lo, p1) =>
      match hp1 : p1 with
      | '-' :: p1t =>
        match hg2 : getEsc p1t with
        | none => none
        | some (hi, p2) => classRanges r (matched || (lo ≤ r && r ≤ hi)) (nrange + 1) p2
      | _ => classRanges r (matched || (lo ≤ r && r ≤ lo)) (nrange + 1) p1
termination_by p.length
decreasing_by
  · have h1 := getEsc_lt hg
    have h2 := getEsc_lt hg2
    simp only [hp1, List.length_cons] at *
    omega
  · have h1 := getEsc_lt hg
    simp only [hp1] at *
    omega

/-- Go `path.Match` restricted to separator-free segments, returning `true`
exactly when Go returns `(true, nil)`; pattern errors are conflated with
"no match", which is observationally equivalent for the only caller
(`matchSegs` tests `err != nil || !ok`). -/
def matchSeg (p s : Str) : Bool :=
  match p with
  | [] => s.isEmpty
  | '*' :: ps =>
    matchSeg ps s ||
      (match s with
       | [] => false
       | _ :: st => matchSeg ('*' :: ps) st)
  | '[' :: ps =>
    match s with
    | [] => false
    | sc :: st =>
      let (negated, ps1) :=
        match ps with
        | '^' :: pt => (true, pt)
        | _ => (false, ps)
      match classRanges sc false 0 ps1 with
      | none => false
      | some (matched, prest) =>
        if matched == negated then false else matchSeg prest st
  | '\\' :: ps =>
    match ps with
    | [] => false
    | pc :: pt =>
      match s with
      | [] => false
      | sc :: st => pc == sc && matchSeg pt st
  | '?' :: ps =>
    match s with
    | [] => false
    | _ :: st => matchSeg ps st
  | pc :: pt =>
    match s with
    | [] => false
    | sc :: st => pc == sc && matchSeg pt st
termination_by (s.length, p.length)

/-- `matchSegs` from `rules.go`: `**` as a full pattern segment matches any
number of path segments; other segments use `path.Match`. -/
def matchSegs : List Str → List Str → Bool
  | [], pathSegs => pathSegs.isEmpty
  | pat0 :: prest, pathSegs =>
    if pat0 = [] ∧ prest = [] then pathSegs == [([] : Str)]
    else if pat0 = "**".toList then
      (List.range (pathSegs.length + 1)).any fun k => matchSegs prest (pathSegs.drop k)
    else
      match pathSegs with
      | [] => false
      | s0 :: srest => matchSeg pat0 s0 && matchSegs prest srest

/-- `matchGlob` from `rules.go`. -/
def matchGlob (pattern target : Str) : Bool :=
  let pattern := normPath pattern
  let target := normPath target
  matchSegs (pattern.splitOn '/') (target.splitOn '/')

/-! ## Rules and their compilation (`rules.go`) -/

/-- `Rules` from `rules.go`. `extraReplacements` models the Go
`map[string]string` together with one iteration order of its entries; Go
leaves that order unspecified, so theorems quantify over it where it
matters. The two collapse fields are the `ReplaceHistoryWithCurrent` /
`ReplaceHistoryContent` fields used by the tests and by the sync driver. -/
structure Rules where
  privateUsername : Str := []
  replacement : Str := []
  extraReplacements : List (Str × Str) := []
  excludePatterns : List Str := []
  optInPaths : List Str := []
  replaceHistoryWithCurrent : List Str := []
  replaceHistoryContent : List (Str × Str) := []
  publicAuthorName : Str := []
  publicAuthorEmail : Str := []
  deriving Repr, DecidableEq, Inhabited

/-- `CompiledRules` from `rules.go`. The compiled regexes `privateRe` and
`extraRe` are determined by their literals (`(?i)` + `QuoteMeta`), so only
the literals are stored; `replaceCI` plays the role of
`ReplaceAllStringFunc` on them. `optIn` models the Go set
`map[string]bool`. -/
structure CompiledRules where
  privateU : Str := []
  repl : Str := []
  extra : List (Str × Str) := []
  exclude : List Str := []
  optIn : List Str := []
  replaceHistoryFiles : List Str := []
  replaceHistoryContent : List (Str × Str) := []
  publicAuthorName : Str := []
  publicAuthorEmail : Str := []
  deriving Repr, DecidableEq, Inhabited

/-- First-match association-list lookup (Go map read). -/
def lookupA (m : List (Str × Str)) (k : Str) : Option Str :=
  (m.find? fun kv => kv.1 == k).map (·.2)

/-- Association-list insert with shadowing (Go map write). -/
def insertA (m : List (Str × Str)) (k v : Str) : List (Str × Str) :=
  (k, v) :: m

/-- The substitution pipeline: the private-username pattern first, then each
extra pattern in the order the compiled list holds them (body of
`RewriteString` / `RewriteBytes` from `rules.go`). -/
def rewriteWith (priv repl : Str) (extra : List (Str × Str)) (s : Str) : Str :=
  extra.foldl (fun out kv => replaceCI kv.1 kv.2 out) (replaceCI priv repl s)

/-- Modelled from the spec: the compiled set of history-collapse paths.  The
accessors `ShouldReplaceHistory` / `GetReplaceHistoryContent` /
`GetReplaceHistoryFiles` and the collapse handling inside `Compile` are not
under `src/` (only their tests and callers are); §3 of the spec describes
"the set of paths whose history must be collapsed", so entries are
normalized and deduplicated. -/
def compileReplaceHistoryFiles (files : List Str) : List Str :=
  (files.filterMap fun p =>
    let p := normPath p
    if p = [] then none else some p).dedup

/-- Modelled from the spec: the compiled collapse-path contents, keyed by the
normalized path, "with the substitution pipeline applied once at
rule-compile time" (§4.C.6). -/
def compileReplaceHistoryContent (priv repl : Str) (extra : List (Str × Str))
    (content : List (Str × Str)) : List (Str × Str) :=
  content.map fun kv => (normPath kv.1, rewriteWith priv repl extra kv.2)

/-- `Compile` from `rules.go`.  Regex compilation of `(?i)` + `QuoteMeta`
literals never fails, so those error paths are absent. -/
def Compile (r : Rules) : Except Str CompiledRules :=
  let priv := trimS r.privateUsername
  if priv = [] then .error "private username is required".toList
  else
    let repl := trimS r.replacement
    if repl = [] then .error "replacement is required".toList
    else if containsCI priv repl then
      .error "replacement string must not contain the private username".toList
    else
      let nnPatterns := nonNegotiablePatterns
      let ex := nnPatterns ++ r.excludePatterns.filterMap fun p =>
        let p := normPath p
        if p = [] ∨ IsNonNegotiablePath p then none else some p
      let opt := r.optInPaths.filterMap fun p =>
        let p := normPath p
        if p = [] ∨ IsNonNegotiablePath p then none else some p
      let finalEx := ex.filter fun p => isNonNegotiablePattern p || !opt.contains p
      let extraPairs := r.extraReplacements.filterMap fun kv =>
        let k := trimS kv.1
        if k = [] then none else some (k, kv.2)
      let pubName := if trimS r.publicAuthorName = [] then repl else trimS r.publicAuthorName
      let pubEmail :=
        if trimS r.publicAuthorEmail = [] then repl ++ "@example.invalid".toList
        else trimS r.publicAuthorEmail
      .ok
        { privateU := priv
          repl := repl
          extra := extraPairs
          exclude := finalEx
          optIn := opt
          replaceHistoryFiles := compileReplaceHistoryFiles r.replaceHistoryWithCurrent
          replaceHistoryContent :=
            compileReplaceHistoryContent priv repl extraPairs r.replaceHistoryContent
          publicAuthorName := pubName
          publicAuthorEmail := pubEmail }

/-- `CompiledRules.RewriteString` (identical to `RewriteBytes` in the
byte-list model). -/
def CompiledRules.RewriteString (c : CompiledRules) (s : Str) : Str :=
  rewriteWith c.privateU c.repl c.extra s

/-- `CompiledRules.ShouldExclude` from `rules.go`. -/
def CompiledRules.ShouldExclude (c : CompiledRules) (p : Str) : Bool :=
  let p := normPath p
  if IsNonNegotiablePath p then true
  else c.exclude.any fun pat =>
    let pat := normPath pat
    !pat.isEmpty && matchGlob pat p

/-- Modelled from the spec: membership in the collapse set (`ShouldReplaceHistory`). -/
def CompiledRules.ShouldReplaceHistory (c : CompiledRules) (p : Str) : Bool :=
  c.replaceHistoryFiles.contains p

/-- Modelled from the spec: scrubbed HEAD bytes of a collapse path, `none`
when the path had no content at HEAD (`GetReplaceHistoryContent`). -/
def CompiledRules.GetReplaceHistoryContent (c : CompiledRules) (p : Str) : Option Str :=
  lookupA c.replaceHistoryContent p

/-- Modelled from the spec: the list of collapse paths (`GetReplaceHistoryFiles`). -/
def CompiledRules.GetReplaceHistoryFiles (c : CompiledRules) : List Str :=
  c.replaceHistoryFiles

/-! ## The export filter (`ExportFilter`)

The filter file parses the fast-export byte stream into records before
acting on them; the embedding works on the parsed records: a file
operation line that `parseM`/`parseTwoPaths` would accept is a structured
constructor, one it would reject is a `raw` constructor (passed through
verbatim), and any other line is `other` (the default branch).  Tag
records are not modelled; no claim mentions them. -/

inductive FileOp
  | M (mode dataref path : Str)
  | Mraw (line : Str)
  | D (path : Str)
  | R (old new : Str)
  | Rraw (line : Str)
  | C (old new : Str)
  | Craw (line : Str)
  | deleteall
  | other (line : Str)
  deriving Repr, DecidableEq, Inhabited

/-- The mutable fields of `ExportFilter`, plus its rules. -/
structure FState where
  rules : CompiledRules
  markMap : List (Str × Str) := []
  refRewriteMap : List (Str × Str) := []
  refReverseMap : List (Str × Str) := []
  replaceHistorySeenFiles : List Str := []
  replaceHistoryMarks : List (Str × Str) := []
  nextSyntheticMark : Nat := 900000000
  syntheticBlobsEmitted : Bool := false
  deriving Repr, DecidableEq, Inhabited

/-- `NewExportFilter` from the filter file. -/
def NewExportFilter (r : CompiledRules) : FState := { rules := r }

/-- `fmt.Sprintf(":%d", n)`. -/
def mkMark (n : Nat) : Str := ':' :: (toString n).toList

def unsafeRenameMsg (o n : Str) : Str :=
  "unsafe rename from excluded path ".toList ++ o ++ " to included path ".toList ++ n

def unsafeCopyMsg (o n : Str) : Str :=
  "unsafe copy from excluded path ".toList ++ o ++ " to included path ".toList ++ n

/-- `ExportFilter.filterOps` from the filter file; returns the surviving
operations, the `kept` counter and the updated state. -/
def filterOps (st : FState) : List FileOp → Except Str (List FileOp × Nat × FState)
  | [] => .ok ([], 0, st)
  | op :: rest =>
    match op with
    | .deleteall => do
      let (out, kept, st') ← filterOps st rest
      .ok (.deleteall :: out, kept + 1, st')
    | .M mode dataref path =>
      if st.rules.ShouldExclude path then filterOps st rest
      else
        let newPath := trimPre "./".toList (st.rules.RewriteString path)
        if st.rules.ShouldExclude newPath then filterOps st rest
        else
          let normalizedPath := normPath newPath
          if st.rules.ShouldReplaceHistory normalizedPath then
            match lookupA st.replaceHistoryMarks normalizedPath with
            | none => filterOps st rest
            | some syntheticMark =>
              if st.replaceHistorySeenFiles.contains normalizedPath then filterOps st rest
              else do
                let st1 := { st with
                  replaceHistorySeenFiles := normalizedPath :: st.replaceHistorySeenFiles }
                let (out, kept, st') ← filterOps st1 rest
                .ok (.M mode syntheticMark newPath :: out, kept + 1, st')
          else do
            let (out, kept, st') ← filterOps st rest
            .ok (.M mode dataref newPath :: out, kept + 1, st')
    | .Mraw line => do
      let (out, kept, st') ← filterOps st rest
      .ok (.Mraw line :: out, kept + 1, st')
    | .D path =>
      if st.rules.ShouldExclude path then filterOps st rest
      else
        let newPath := st.rules.RewriteString path
        if st.rules.ShouldExclude newPath then filterOps st rest
        else if st.rules.ShouldReplaceHistory (normPath newPath) then filterOps st rest
        else do
          let (out, kept, st') ← filterOps st rest
          .ok (.D newPath :: out, kept + 1, st')
    | .R oldP newP =>
      if st.rules.ShouldExclude oldP && !st.rules.ShouldExclude newP then
        .error (unsafeRenameMsg oldP newP)
      else if st.rules.ShouldExclude newP then filterOps st rest
      else do
        let (out, kept, st') ← filterOps st rest
        .ok (.R (st.rules.RewriteString oldP) (st.rules.RewriteString newP) :: out, kept + 1, st')
    | .Rraw line => do
      let (out, kept, st') ← filterOps st rest
      .ok (.Rraw line :: out, kept + 1, st')
    | .C oldP newP =>
      if st.rules.ShouldExclude oldP && !st.rules.ShouldExclude newP then
        .error (unsafeCopyMsg oldP newP)
      else if st.rules.ShouldExclude newP then filterOps st rest
      else do
        let (out, kept, st') ← filterOps st rest
        .ok (.C (st.rules.RewriteString oldP) (st.rules.RewriteString newP) :: out, kept + 1, st')
    | .Craw line => do
      let (out, kept, st') ← filterOps st rest
      .ok (.Craw line :: out, kept + 1, st')
    | .other line => do
      let (out, kept, st') ← filterOps st rest
      .ok (.other (st.rules.RewriteString line) :: out, kept + 1, st')

/-- `ExportFilter.resolveCommitRef` from the filter file. -/
def resolveCommitRef (st : FState) (ref : Str) : Str :=
  let ref := trimS ref
  if hasPre ":".toList ref then
    match lookupA st.markMap ref with
    | some v => v
    | none => ref
  else ref

/-- `ExportFilter.rewriteRef` from the filter file. -/
def rewriteRef (st : FState) (ref : Str) : Str :=
  st.rules.RewriteString ref

/-- `ExportFilter.checkRefCollision` from the filter file.  The
forward-map write that Go performs before the reverse lookup is folded
into the returned records (the reverse lookup does not read the forward
map, so the behaviour is identical). -/
def checkRefCollision (st : FState) (orig rewritten : Str) : Except Str FState :=
  match lookupA st.refRewriteMap orig with
  | some prev =>
    if prev ≠ rewritten then .error "internal ref rewrite mismatch".toList
    else .ok st
  | none =>
    match lookupA st.refReverseMap rewritten with
    | some back =>
      if back ≠ orig then .error "ref name collision after scrubbing".toList
      else .ok { st with refRewriteMap := insertA st.refRewriteMap orig rewritten
                         refReverseMap := insertA st.refReverseMap rewritten orig }
    | none =>
      .ok { st with refRewriteMap := insertA st.refRewriteMap orig rewritten
                    refReverseMap := insertA st.refReverseMap rewritten orig }

/-- `rewriteIdentityLine` from the filter file. -/
def rewriteIdentityLine (kind line : Str) (rules : CompiledRules) : Str :=
  let rest := trimS (trimPre (kind ++ [' ']) line)
  if rest.contains '>' then
    let after := trimS ((rest.reverse.takeWhile fun c => c ≠ '>').reverse)
    kind ++ [' '] ++ rules.publicAuthorName ++ " <".toList ++ rules.publicAuthorEmail
      ++ "> ".toList ++ after ++ ['\n']
  else
    kind ++ [' '] ++ rules.RewriteString rest ++ ['\n']

/-- A parsed commit record: the headers, message, parent/merge references
and file operations collected by `handleCommit` before its `EMIT` label.
`from`/`merge` targets and the mark are stored trimmed, as the parser
leaves them. -/
structure CommitRec where
  ref : Str
  mark : Str := []
  origOid : Str := []
  author : Str := []
  committer : Str := []
  encoding : Str := []
  otherHeader : List Str := []
  message : Str := []
  parent : Str := []
  merges : List Str := []
  ops : List FileOp := []
  deriving Repr, DecidableEq, Inhabited

/-- The structured output of the filter; each constructor corresponds to
one contiguous group of `WriteString`/`Write` calls. -/
inductive OutRec
  | blobPass (meta : List Str) (data : Str)
  | synthBlob (mark : Str) (data : Str)
  | resetR (ref : Str)
  | fromR (r : Str)
  | commitR (ref : Str)
  | markR (m : Str)
  | lineR (line : Str)
  | dataR (payload : Str)
  | mergeR (r : Str)
  | opR (op : FileOp)
  | blank
  deriving Repr, DecidableEq, Inhabited

/-- The `mark` header handling of `handleCommit`'s parse loop: a seen mark
is entered into the mark table mapping to itself. -/
def preOpState (st : FState) (c : CommitRec) : FState :=
  if c.mark ≠ [] then { st with markMap := insertA st.markMap c.mark c.mark } else st

/-- `ExportFilter.handleCommit` from the filter file, from the parsed
record to the emitted records (the code from the collision check and the
parse-time mark-table write through the `EMIT` section). -/
def handleCommitEmit (st : FState) (c : CommitRec) : Except Str (List OutRec × FState) := do
  let newRef := rewriteRef st c.ref
  let st ← checkRefCollision st c.ref newRef
  let st := preOpState st c
  let parentResolved := if c.parent ≠ [] then resolveCommitRef st c.parent else []
  let (filteredOps, keptOps, st) ← filterOps st c.ops
  if keptOps = 0 ∧ c.merges = [] then
    let st :=
      if c.mark ≠ [] then { st with markMap := insertA st.markMap c.mark parentResolved }
      else st
    .ok ([OutRec.resetR newRef]
      ++ (if parentResolved ≠ [] then [OutRec.fromR parentResolved] else [])
      ++ [OutRec.blank], st)
  else
    let message := st.rules.RewriteString c.message
    let out := [OutRec.commitR newRef]
      ++ (if c.mark ≠ [] then [OutRec.markR c.mark] else [])
      ++ (if c.origOid ≠ [] then [OutRec.lineR c.origOid] else [])
      ++ (if c.author ≠ [] then [OutRec.lineR (rewriteIdentityLine "author".toList c.author st.rules)] else [])
      ++ (if c.committer ≠ [] then [OutRec.lineR (rewriteIdentityLine "committer".toList c.committer st.rules)] else [])
      ++ (if c.encoding ≠ [] then [OutRec.lineR c.encoding] else [])
      ++ c.otherHeader.map OutRec.lineR
      ++ [OutRec.dataR message]
      ++ (if parentResolved ≠ [] then [OutRec.fromR parentResolved] else [])
      ++ (c.merges.filterMap fun m0 =>
            let m := resolveCommitRef st m0
            if m = [] then none else some (OutRec.mergeR m))
      ++ filteredOps.map OutRec.opR
      ++ [OutRec.blank]
    .ok (out, st)

/-- The loop body of `ExportFilter.emitSyntheticBlobs`. -/
def emitSyntheticBlobsAux (st : FState) : List Str → List OutRec × FState
  | [] => ([], st)
  | f :: files =>
    match st.rules.GetReplaceHistoryContent f with
    | none => emitSyntheticBlobsAux st files
    | some content =>
      let mark := mkMark st.nextSyntheticMark
      let st1 := { st with
        nextSyntheticMark := st.nextSyntheticMark + 1
        replaceHistoryMarks := insertA st.replaceHistoryMarks f mark }
      let (out, st') := emitSyntheticBlobsAux st1 files
      (OutRec.synthBlob mark content :: out, st')

/-- `ExportFilter.emitSyntheticBlobs` from the filter file. -/
def emitSyntheticBlobs (st : FState) : List OutRec × FState :=
  emitSyntheticBlobsAux st st.rules.GetReplaceHistoryFiles

/-- `ExportFilter.handleBlob` from the filter file: metadata lines pass
through, the payload is rewritten.  It does not touch the state. -/
def handleBlobRec (st : FState) (meta : List Str) (data : Str) : List OutRec :=
  [OutRec.blobPass meta (st.rules.RewriteString data)]

/-- `ExportFilter.handleReset` from the filter file (at parsed level:
`fromRef` is the peeked `from` line's target, when present). -/
def handleResetRec (st : FState) (ref : Str) (fromRef : Option Str) :
    Except Str (List OutRec × FState) := do
  let newRef := rewriteRef st ref
  let st ← checkRefCollision st ref newRef
  match fromRef with
  | none => .ok ([OutRec.resetR newRef], st)
  | some p0 =>
    let p1 := resolveCommitRef st p0
    .ok ([OutRec.resetR newRef, OutRec.fromR (if p1 ≠ [] then p1 else p0)], st)

/-- A parsed input record of the stream (tags are not modelled). -/
inductive Rec
  | blob (meta : List Str) (data : Str)
  | commit (c : CommitRec)
  | reset (ref : Str) (fromRef : Option Str)
  | passthrough (line : Str)
  deriving Repr, DecidableEq, Inhabited

/-- `ExportFilter.Filter`'s dispatch loop over parsed records, including
the emit-synthetic-blobs-before-the-first-commit step. -/
def filterRecords (st : FState) : List Rec → Except Str (List OutRec × FState)
  | [] => .ok ([], st)
  | r :: rest =>
    match r with
    | .blob meta data => do
      let out1 := handleBlobRec st meta data
      let (out, st') ← filterRecords st rest
      .ok (out1 ++ out, st')
    | .commit c => do
      let (synthOut, st1) :=
        if st.syntheticBlobsEmitted then ([], st)
        else
          let (o, s) := emitSyntheticBlobs st
          (o, { s with syntheticBlobsEmitted := true })
      let (cOut, st2) ← handleCommitEmit st1 c
      let (out, st') ← filterRecords st2 rest
      .ok (synthOut ++ cOut ++ out, st')
    | .reset ref fromRef => do
      let (rOut, st1) ← handleResetRec st ref fromRef
      let (out, st') ← filterRecords st1 rest
      .ok (rOut ++ out, st')
    | .passthrough line => do
      let (out, st') ← filterRecords st rest
      .ok (OutRec.lineR line :: out, st')

/-! ## The validator (`validate.go`)

`ValidateScrubbedRepo` runs `git ls-tree` per ref and
`git cat-file --batch-all-objects --batch`; the model receives the
already-enumerated tree paths per ref and the already-split
header/payload pairs per object (the subprocess and stream-framing I/O is
outside the embedding). -/

structure RefTree where
  name : Str
  paths : List Str
  deriving Repr, DecidableEq, Inhabited

structure ObjectRec where
  header : Str
  payload : Str
  deriving Repr, DecidableEq, Inhabited

structure RepoModel where
  refs : List RefTree := []
  objects : List ObjectRec := []
  deriving Repr, DecidableEq, Inhabited

/-- The inner loop of phase 1 of `ValidateScrubbedRepo`: scan one ref's
tree paths. -/
def checkTreePaths (forbidden : List Str) : List Str → Except Str Unit
  | [] => .ok ()
  | p :: ps =>
    let p := trimS p
    if p = [] then checkTreePaths forbidden ps
    else if IsNonNegotiablePath p then
      .error ("found forbidden path in target repo: ".toList ++ p)
    else if forbidden.any (fun bad => !bad.isEmpty && p == bad) then
      .error ("found forbidden path in target repo: ".toList ++ p)
    else checkTreePaths forbidden ps

/-- Phase 1 of `ValidateScrubbedRepo`: forbidden paths in the trees of all
`refs/heads/*` and `refs/tags/*` refs. -/
def validatePhase1 (forbidden : List Str) : List RefTree → Except Str Unit
  | [] => .ok ()
  | rt :: rest =>
    if hasPre "refs/heads/".toList rt.name || hasPre "refs/tags/".toList rt.name then do
      checkTreePaths forbidden rt.paths
      validatePhase1 forbidden rest
    else validatePhase1 forbidden rest

/-- Phase 2 of `ValidateScrubbedRepo`: the case-insensitive residual scan
over every object's payload and header. -/
def validatePhase2 (priv : Str) : List ObjectRec → Except Str Unit
  | [] => .ok ()
  | o :: os =>
    if containsCI priv o.payload || containsCI priv o.header then
      .error "private username still present in scrubbed git objects".toList
    else validatePhase2 priv os

/-- `ValidateScrubbedRepo` from `validate.go`. -/
def ValidateScrubbedRepo (priv : Str) (forbidden : List Str) (repo : RepoModel) :
    Except Str Unit :=
  if priv = [] then .ok ()
  else do
    validatePhase1 forbidden repo.refs
    validatePhase2 priv repo.objects

/-! ## The sync driver (`SyncRepo` / `targetConfigHash` / `syncTarget` /
`exportFilterImport` in the provider file)

The driver layer does no character surgery, so it is modelled over Lean
`String`.  SHA-256 of the canonical JSON is modelled as an arbitrary
function of the canonical payload: every claim about the fingerprint only
needs "equal payloads give equal digests". -/

/-- `state.TargetState` (the fields the skip decision reads). -/
structure TargetState where
  lastError : String := ""
  lastPrivateRefs : String := ""
  lastConfigHash : String := ""
  deriving Repr, DecidableEq, Inhabited

/-- `config.TargetDefaults`.  The `replaceHistoryWithCurrent` field is
modelled from the spec (§6): the config file revision under `src/`
predates it, while the driver in the provider file reads it. -/
structure TargetDefaultsM where
  exclude : List String := []
  optIn : List String := []
  replaceHistoryWithCurrent : List String := []
  extraReplacementPairs : List (String × String) := []
  deriving Repr, DecidableEq, Inhabited

/-- `config.Target` (the fields the driver reads; likewise the collapse
list is modelled from the spec). -/
structure TargetM where
  label : String := ""
  provider : String := ""
  account : String := ""
  repoName : String := ""
  repoURL : String := ""
  replacement : String := ""
  publicAuthorName : String := ""
  publicAuthorEmail : String := ""
  exclude : List String := []
  optIn : List String := []
  replaceHistoryWithCurrent : List String := []
  initialHistoryMode : String := ""
  deriving Repr, DecidableEq, Inhabited

/-- `config.RepoConfig` (the fields the driver reads). -/
structure RepoConfigM where
  privateUsername : String := ""
  headBranch : String := ""
  defaults : TargetDefaultsM := {}
  targets : List TargetM := []
  deriving Repr, DecidableEq, Inhabited

/-- `configHashPayload` from the provider file. -/
structure ConfigHashPayload where
  version : Nat
  privateUsername : String
  headBranch : String
  targetLabel : String
  provider : String
  account : String
  repoName : String
  repoURL : String
  replacement : String
  publicName : String
  publicEmail : String
  initialHistory : String
  exclude : List String
  optIn : List String
  replaceHistoryWithCurrent : List String
  extraReplacementPairs : List (String × String)
  deriving Repr, DecidableEq, Inhabited

/-- The canonical payload built by `targetConfigHash`: merged lists are
sorted (`sort.Strings`), and the extra-replacement map is put in the key
order `encoding/json` serializes Go maps in (sorted keys). -/
def configHashPayloadOf (cfg : RepoConfigM) (t : TargetM) : ConfigHashPayload :=
  let exclude := (cfg.defaults.exclude ++ t.exclude).mergeSort
  let optIn := (cfg.defaults.optIn ++ t.optIn).mergeSort
  let rhwc := (cfg.defaults.replaceHistoryWithCurrent ++ t.replaceHistoryWithCurrent).mergeSort
  let repl := if t.replacement = "" then t.account else t.replacement
  { version := 1
    privateUsername := cfg.privateUsername
    headBranch := cfg.headBranch
    targetLabel := t.label
    provider := t.provider
    account := t.account
    repoName := t.repoName
    repoURL := t.repoURL
    replacement := repl
    publicName := t.publicAuthorName
    publicEmail := t.publicAuthorEmail
    initialHistory := t.initialHistoryMode
    exclude := exclude
    optIn := optIn
    replaceHistoryWithCurrent := rhwc
    extraReplacementPairs :=
      cfg.defaults.extraReplacementPairs.mergeSort fun a b => a.1 ≤ b.1 }

/-- `targetConfigHash` from the provider file, parametrized by the digest
function (hex SHA-256 of the canonical JSON); only "equal payload, equal
digest" is used. -/
def targetConfigHash (h : ConfigHashPayload → String) (cfg : RepoConfigM) (t : TargetM) :
    String :=
  h (configHashPayloadOf cfg t)

/-- The skip condition of the per-target loop in `SyncRepo`. -/
def skipTarget (ts : TargetState) (privateRefsHash configHash : String) : Bool :=
  ts.lastPrivateRefs == privateRefsHash && ts.lastError == "" && ts.lastConfigHash == configHash

/-- The `scrub.Rules` value `syncTarget` builds for a target (string-level
inputs converted to the byte-list model; `rhContent` is what
`readFileFromHEAD` returned per collapse path). -/
def rulesOf (cfg : RepoConfigM) (t : TargetM) (rhContent : List (String × String)) : Rules :=
  { privateUsername := cfg.privateUsername.toList
    replacement := (if t.replacement = "" then t.account else t.replacement).toList
    extraReplacements := cfg.defaults.extraReplacementPairs.map fun kv => (kv.1.toList, kv.2.toList)
    excludePatterns := (cfg.defaults.exclude ++ t.exclude).map String.toList
    optInPaths := (cfg.defaults.optIn ++ t.optIn).map String.toList
    replaceHistoryWithCurrent :=
      (cfg.defaults.replaceHistoryWithCurrent ++ t.replaceHistoryWithCurrent).map String.toList
    replaceHistoryContent := rhContent.map fun kv => (kv.1.toList, kv.2.toList)
    publicAuthorName := t.publicAuthorName.toList
    publicAuthorEmail := t.publicAuthorEmail.toList }

/-- The externally visible work items of `syncTarget`. -/
inductive SyncAction
  | compileRules
  | initBare
  | exportA
  | filterA
  | importA
  | validateA
  | publishA
  deriving Repr, DecidableEq, Inhabited

/-- `syncTarget` as an action trace.  The repository-content-dependent
outcomes (the export→filter→import pipeline and the validator run) are
parameters; rule compilation is the modelled pure failure point.  Returns
the actions performed and whether the target sync succeeded. -/
def syncTargetActions (cfg : RepoConfigM) (t : TargetM) (rhContent : List (String × String))
    (pipelineOk validateOk : Bool) : List SyncAction × Bool :=
  match Compile (rulesOf cfg t rhContent) with
  | .error _ => ([.compileRules], false)
  | .ok _ =>
    if !pipelineOk then
      ([.compileRules, .initBare, .exportA, .filterA, .importA], false)
    else if !validateOk then
      ([.compileRules, .initBare, .exportA, .filterA, .importA, .validateA], false)
    else
      ([.compileRules, .initBare, .exportA, .filterA, .importA, .validateA, .publishA], true)

/-- The per-target body of `SyncRepo`'s loop: skip-or-sync.  Returns the
action trace and the `DidWork` flag of the reported `Result`. -/
def syncStep (h : ConfigHashPayload → String) (cfg : RepoConfigM) (t : TargetM)
    (ts : TargetState) (privateRefsHash : String) (rhContent : List (String × String))
    (pipelineOk validateOk : Bool) : List SyncAction × Bool :=
  if skipTarget ts privateRefsHash (targetConfigHash h cfg t) then ([], false)
  else (syncTargetActions cfg t rhContent pipelineOk validateOk |>.1, true)

/-- The blocking events of `exportFilterImport` in the provider file, in
program order. -/
inductive EfiEvent
  | recvFilterDone
  | waitExport
  | killImport
  | waitImport
  | repack
  deriving Repr, DecidableEq, Inhabited

/-- `exportFilterImport` from the provider file as a trace of its blocking
events, as a function of the three stage outcomes (`filter.Filter`'s
error, `exp.Wait`'s error, `imp.Wait`'s error).  The two `Start` calls
precede every wait and are not traced. -/
def exportFilterImportTrace (filterErr expErr impErr : Option String) :
    List EfiEvent × Option String :=
  let t0 := [EfiEvent.recvFilterDone, EfiEvent.waitExport]
  match expErr with
  | some e => (t0 ++ [.killImport], some ("fast-export failed: " ++ e))
  | none =>
    match filterErr with
    | some e => (t0 ++ [.killImport], some ("export filter failed: " ++ e))
    | none =>
      match impErr with
      | some e => (t0 ++ [.waitImport], some ("fast-import failed: " ++ e))
      | none => (t0 ++ [.waitImport, .repack], none)

/-- `handleCommit`'s linear-chain scenario of claim C3: one commit record
per mark, each with no file operations and no merges (hence elided), the
first with parent `parent`, every later one with the previous mark as its
parent. -/
def chainCommit (ref mark parent : Str) : CommitRec :=
  { ref := ref, mark := mark, parent := parent }

/-- The resolved-parent value recorded when a chain commit with mark `m`
and parent `p` is elided on top of the post-collision-check state `st1`. -/
def chainPr (st1 : FState) (m p : Str) : Str :=
  if p ≠ [] then resolveCommitRef { st1 with markMap := insertA st1.markMap m m } p else []

/-- Processing a chain of elided commits in stream order. -/
def processElidedChain (st : FState) (ref : Str) (parent : Str) :
    List Str → Except Str FState
  | [] => .ok st
  | m :: rest => do
    let (_, st') ← handleCommitEmit st (chainCommit ref m parent)
    processElidedChain st' ref m rest

/-! ## Concrete values used by witnesses and counterexamples -/

/-- Total extractor for compiled rules, used only to write concrete
witness values. -/
def compiledOf (r : Rules) : CompiledRules :=
  match Compile r with
  | .ok c => c
  | .error _ => {}

/-- Total extractor for `checkRefCollision`, used only to write concrete
witness values. -/
def collisionStep (st : FState) (o r : Str) : FState :=
  match checkRefCollision st o r with
  | .ok s => s
  | .error _ => st

/-- The ruleset of the repository's own `S1` test scenario. -/
def exRules : Rules where
  privateUsername := "obinnaokechukwu".toList
  replacement := "johndoe".toList
  excludePatterns := [".env".toList]
  publicAuthorName := "John Doe".toList
  publicAuthorEmail := "john@public.invalid".toList

def exState : FState := NewExportFilter (compiledOf exRules)

/-- A filter state whose mark table already resolves `:0` to itself, as
`handleCommit` records for every non-elided commit. -/
def exStateC3 : FState :=
  { exState with markMap := [(":0".toList, ":0".toList)] }

/-- The state after running the C3 witness chain: two elided commits
`:1`, `:2` on top of the non-elided ancestor `:0`. -/
def exChainResult : FState :=
  match processElidedChain exStateC3 "refs/heads/main".toList ":0".toList
      [":1".toList, ":2".toList] with
  | .ok s => s
  | .error _ => exStateC3

/-- The elided-only commit of scenario `S1`: its only operation touches the
excluded `.env`. -/
def exCommitC2 : CommitRec where
  ref := "refs/heads/main".toList
  mark := ":2".toList
  parent := ":1".toList
  ops := [FileOp.M "100644".toList ":9".toList ".env".toList]

/-- C1 counterexample ruleset: replacing `ab` by `b` can re-create `ab`. -/
def cexRulesC1 : Rules where
  privateUsername := "ab".toList
  replacement := "b".toList

/-- C1 counterexample repository: its only branch name is the rewrite of
`refs/heads/aab`, and every object is clean. -/
def cexRepoC1 : RepoModel where
  refs := [{ name := "refs/heads/ab".toList, paths := ["a.txt".toList] }]
  objects := [{ header := "0123 blob 5".toList, payload := "hello".toList }]

/-- C6 counterexample: the same extra-replacement map entries in two
iteration orders. -/
def cexRulesC6a : Rules where
  privateUsername := "zz".toList
  replacement := "qq".toList
  extraReplacements := [("ab".toList, "x".toList), ("b".toList, "y".toList)]

def cexRulesC6b : Rules where
  privateUsername := "zz".toList
  replacement := "qq".toList
  extraReplacements := [("b".toList, "y".toList), ("ab".toList, "x".toList)]

/-- C8 counterexample config: the private username `a` is a substring of
the effective replacement (the account `ab`), so rule compilation fails. -/
def cexCfgC8 : RepoConfigM where
  privateUsername := "a"
  headBranch := "main"

def cexTargetC8 : TargetM where
  label := "gh"
  provider := "github"
  account := "ab"
  repoName := "repo"
  repoURL := "git@github.com:ab/repo.git"

/-- C8 counterexample stored state: the previous sync failed, so the skip
condition is false whatever the fingerprints are. -/
def cexStateC8 : TargetState where
  lastError := "previous failure"

/-- A concrete digest function for the C8 counterexample. -/
def cexDigestC8 : ConfigHashPayload → String := fun _ => ""

/-- C9 witness ruleset: an opt-in both for a regular sensitive file and
(ineffectively) for a file inside the tool's own metadata directory. -/
def exRulesC9 : Rules where
  privateUsername := "obinnaokechukwu".toList
  replacement := "johndoe".toList
  excludePatterns := [".env".toList]
  optInPaths := [".env".toList, ".git-copy/creds.json".toList]

/-- C8 witness config with non-trivial merged lists. -/
def exCfgC8sort : RepoConfigM where
  privateUsername := "alice"
  headBranch := "main"
  defaults := { exclude := ["a.txt", "b.txt"], optIn := ["o1", "o2"],
                replaceHistoryWithCurrent := ["r1", "r2"] }

def exTgtC8sort : TargetM where
  label := "gh"
  provider := "github"
  account := "pub"
  repoName := "r"
  repoURL := "u"
  exclude := ["c.txt", "d.txt"]

/-- C8 witness stored state matching the fresh fingerprints under the
constant digest. -/
def exSkipStateC8 : TargetState where
  lastError := ""
  lastPrivateRefs := "R"
  lastConfigHash := ""

/-- C4 witness ruleset: collapse the history of `LICENSE`. -/
def exRulesC4 : Rules where
  privateUsername := "obinnaokechukwu".toList
  replacement := "johndoe".toList
  replaceHistoryWithCurrent := ["LICENSE".toList]
  replaceHistoryContent := [("LICENSE".toList, "(c) obinnaokechukwu".toList)]

def exStateC4 : FState := NewExportFilter (compiledOf exRulesC4)

def exStateC4e : FState := (emitSyntheticBlobs exStateC4).2

def exStateC4s : FState := { exStateC4e with replaceHistorySeenFiles := normPath (trimPre "./".toList (exStateC4e.rules.RewriteString "LICENSE".toList)) :: exStateC4e.replaceHistorySeenFiles }

def c4commit : CommitRec := { ref := "refs/heads/main".toList, message := "msg".toList, ops := [FileOp.M "100644".toList ":1".toList "LICENSE".toList] }

/-! ## Helper lemmas -/

theorem lookupA_insert (m : List (Str × Str)) (k v : Str) :
    lookupA (insertA m k v) k = some v := by
  simp [lookupA, insertA, List.find?]

theorem lookupA_insert_ne (m : List (Str × Str)) (k v k' : Str) (h : k' ≠ k) :
    lookupA (insertA m k v) k' = lookupA m k' := by
  simp only [lookupA, insertA]
  rw [List.find?_cons]
  have hb : ((k, v).1 == k') = false := beq_eq_false_iff_ne.mpr (Ne.symm h)
  simp [hb]

theorem checkRefCollision_ok {st : FState} {o r : Str} {st' : FState}
    (h : checkRefCollision st o r = .ok st') :
    st'.markMap = st.markMap ∧ st'.rules = st.rules ∧
    st'.replaceHistorySeenFiles = st.replaceHistorySeenFiles ∧
    st'.replaceHistoryMarks = st.replaceHistoryMarks ∧
    st'.nextSyntheticMark = st.nextSyntheticMark ∧
    st'.syntheticBlobsEmitted = st.syntheticBlobsEmitted := by
  unfold checkRefCollision at h
  split at h
  · split at h
    · exact absurd h (by simp)
    · cases h; exact ⟨rfl, rfl, rfl, rfl, rfl, rfl⟩
  · split at h
    · split at h
      · exact absurd h (by simp)
      · cases h; exact ⟨rfl, rfl, rfl, rfl, rfl, rfl⟩
    · cases h; exact ⟨rfl, rfl, rfl, rfl, rfl, rfl⟩

theorem esb_rules : ∀ (files : List Str) (st : FState),
    (emitSyntheticBlobsAux st files).2.rules = st.rules ∧
    (emitSyntheticBlobsAux st files).2.replaceHistorySeenFiles = st.replaceHistorySeenFiles := by
  intro files
  induction files with
  | nil => intro st; exact ⟨rfl, rfl⟩
  | cons g gs ih =>
    intro st
    simp only [emitSyntheticBlobsAux]
    split
    · exact ih st
    · exact ih _

theorem esb_preserve : ∀ (files : List Str) (st : FState) (k : Str), k ∉ files →
    lookupA (emitSyntheticBlobsAux st files).2.replaceHistoryMarks k
      = lookupA st.replaceHistoryMarks k := by
  intro files
  induction files with
  | nil => intro st k _; rfl
  | cons g gs ih =>
    intro st k hk
    have hkg : k ≠ g := fun he => hk (he ▸ List.mem_cons_self g gs)
    have hkgs : k ∉ gs := fun hm => hk (List.mem_cons_of_mem g hm)
    simp only [emitSyntheticBlobsAux]
    split
    · exact ih st k hkgs
    · rw [ih _ k hkgs]
      simp only
      exact lookupA_insert_ne _ _ _ _ hkg

theorem esb_none : ∀ (files : List Str) (st : FState) (f : Str),
    st.rules.GetReplaceHistoryContent f = none →
    lookupA (emitSyntheticBlobsAux st files).2.replaceHistoryMarks f
      = lookupA st.replaceHistoryMarks f := by
  intro files
  induction files with
  | nil => intro st f _; rfl
  | cons g gs ih =>
    intro st f hf
    simp only [emitSyntheticBlobsAux]
    split
    · exact ih st f hf
    · rename_i cnt hg
      have hfg : f ≠ g := by
        intro he
        rw [he, hg] at hf
        exact absurd hf (by simp)
      rw [ih _ f (by simpa using hf)]
      simp only
      exact lookupA_insert_ne _ _ _ _ hfg

theorem esb_count : ∀ (files : List Str) (st : FState),
    (emitSyntheticBlobsAux st files).1.length
      = (files.filter fun f => (st.rules.GetReplaceHistoryContent f).isSome).length := by
  intro files
  induction files with
  | nil => intro st; rfl
  | cons g gs ih =>
    intro st
    simp only [emitSyntheticBlobsAux]
    split
    · rename_i hg
      rw [List.filter_cons]
      simp [hg, ih st]
    · rename_i cnt hg
      rw [List.filter_cons]
      simp only [hg, Option.isSome_some, if_true]
      simp only [List.length_cons]
      rw [ih]

theorem esb_mem : ∀ (files : List Str) (st : FState) (f cnt : Str),
    f ∈ files → st.rules.GetReplaceHistoryContent f = some cnt →
    900000000 ≤ st.nextSyntheticMark →
    ∃ n, 900000000 ≤ n ∧
      lookupA (emitSyntheticBlobsAux st files).2.replaceHistoryMarks f = some (mkMark n) ∧
      OutRec.synthBlob (mkMark n) cnt ∈ (emitSyntheticBlobsAux st files).1 := by
  intro files
  induction files with
  | nil => intro st f cnt hf; simp at hf
  | cons g gs ih =>
    intro st f cnt hf hcnt hctr
    simp only [emitSyntheticBlobsAux]
    by_cases hfg : f = g
    · subst hfg
      rw [hcnt]
      simp only
      by_cases hrest : f ∈ gs
      · obtain ⟨n, hn, hl, hm⟩ := ih { st with nextSyntheticMark := st.nextSyntheticMark + 1, replaceHistoryMarks := insertA st.replaceHistoryMarks f (mkMark st.nextSyntheticMark) } f cnt hrest hcnt (Nat.le_succ_of_le hctr)
        exact ⟨n, hn, hl, by simp [hm]⟩
      · refine ⟨st.nextSyntheticMark, hctr, ?_, by simp⟩
        rw [esb_preserve gs _ f hrest]
        simp only
        exact lookupA_insert _ _ _
    · have hrest : f ∈ gs := by
        rcases List.mem_cons.mp hf with h | h
        · exact absurd h hfg
        · exact h
      split
      · exact ih st f cnt hrest hcnt hctr
      · obtain ⟨n, hn, hl, hm⟩ := ih { st with nextSyntheticMark := st.nextSyntheticMark + 1, replaceHistoryMarks := insertA st.replaceHistoryMarks g (mkMark st.nextSyntheticMark) } f cnt hrest hcnt (Nat.le_succ_of_le hctr)
        exact ⟨n, hn, hl, by simp [hm]⟩

theorem fo_M_first (st : FState) (mode dataref path m : Str) (rest : List FileOp)
    (h1 : st.rules.ShouldExclude path = false)
    (h2 : st.rules.ShouldExclude (trimPre "./".toList (st.rules.RewriteString path)) = false)
    (h3 : st.rules.ShouldReplaceHistory (normPath (trimPre "./".toList (st.rules.RewriteString path))) = true)
    (h4 : lookupA st.replaceHistoryMarks (normPath (trimPre "./".toList (st.rules.RewriteString path))) = some m)
    (h5 : st.replaceHistorySeenFiles.contains (normPath (trimPre "./".toList (st.rules.RewriteString path))) = false) :
    filterOps st (FileOp.M mode dataref path :: rest)
      = Except.map
          (fun r => (FileOp.M mode m (trimPre "./".toList (st.rules.RewriteString path)) :: r.1, r.2.1 + 1, r.2.2))
          (filterOps { st with replaceHistorySeenFiles := normPath (trimPre "./".toList (st.rules.RewriteString path)) :: st.replaceHistorySeenFiles } rest) := by
  simp only [filterOps, h1, h2, h3, h4, h5]
  simp only [Bool.false_eq_true, if_false, if_true]
  cases hr : filterOps { st with replaceHistorySeenFiles := normPath (trimPre "./".toList (st.rules.RewriteString path)) :: st.replaceHistorySeenFiles } rest with
  | error e => simp [Bind.bind, Except.bind, Except.map, hr]
  | ok v => simp [Bind.bind, Except.bind, Except.map, hr]

theorem fo_M_seen (st : FState) (mode dataref path m : Str) (rest : List FileOp)
    (h1 : st.rules.ShouldExclude path = false)
    (h2 : st.rules.ShouldExclude (trimPre "./".toList (st.rules.RewriteString path)) = false)
    (h3 : st.rules.ShouldReplaceHistory (normPath (trimPre "./".toList (st.rules.RewriteString path))) = true)
    (h4 : lookupA st.replaceHistoryMarks (normPath (trimPre "./".toList (st.rules.RewriteString path))) = some m)
    (h5 : st.replaceHistorySeenFiles.contains (normPath (trimPre "./".toList (st.rules.RewriteString path))) = true) :
    filterOps st (FileOp.M mode dataref path :: rest) = filterOps st rest := by
  simp only [filterOps, h1, h2, h3, h4, h5]
  simp

theorem fo_M_nomark (st : FState) (mode dataref path : Str) (rest : List FileOp)
    (h1 : st.rules.ShouldExclude path = false)
    (h2 : st.rules.ShouldExclude (trimPre "./".toList (st.rules.RewriteString path)) = false)
    (h3 : st.rules.ShouldReplaceHistory (normPath (trimPre "./".toList (st.rules.RewriteString path))) = true)
    (h4 : lookupA st.replaceHistoryMarks (normPath (trimPre "./".toList (st.rules.RewriteString path))) = none) :
    filterOps st (FileOp.M mode dataref path :: rest) = filterOps st rest := by
  simp only [filterOps, h1, h2, h3, h4]
  simp

theorem fo_D_collapse (st : FState) (path : Str) (rest : List FileOp)
    (h1 : st.rules.ShouldExclude path = false)
    (h2 : st.rules.ShouldExclude (st.rules.RewriteString path) = false)
    (h3 : st.rules.ShouldReplaceHistory (normPath (st.rules.RewriteString path)) = true) :
    filterOps st (FileOp.D path :: rest) = filterOps st rest := by
  simp only [filterOps, h1, h2, h3]
  simp

theorem fr_first_commit (st : FState) (c : CommitRec) (rest : List Rec)
    (h : st.syntheticBlobsEmitted = false) :
    filterRecords st (Rec.commit c :: rest)
      = (handleCommitEmit { (emitSyntheticBlobs st).2 with syntheticBlobsEmitted := true } c).bind
          (fun co => (filterRecords co.2 rest).bind
            (fun ro => Except.ok ((emitSyntheticBlobs st).1 ++ co.1 ++ ro.1, ro.2))) := by
  simp only [filterRecords, h]
  simp only [Bool.false_eq_true, if_false]
  cases h1 : handleCommitEmit { (emitSyntheticBlobs st).2 with syntheticBlobsEmitted := true } c with
  | error e => simp [Bind.bind, Except.bind, h1]
  | ok v =>
    cases h2 : filterRecords v.2 rest with
    | error e => simp [Bind.bind, Except.bind, h1, h2]
    | ok w => simp [Bind.bind, Except.bind, h1, h2]

/-! ## Claim theorems -/

/-- C10: in every run of the driver's export-filter-import pipeline
(`exportFilterImport` in the provider file), whatever the three stage
outcomes, the first blocking event is receiving the filter routine's
completion, the second is waiting on (reaping) the exporter process, and
the importer is waited on only after both. -/
theorem C10_wait_order (filterErr expErr impErr : Option String) :
    (exportFilterImportTrace filterErr expErr impErr).1.take 2
        = [EfiEvent.recvFilterDone, EfiEvent.waitExport] ∧
    (EfiEvent.waitImport ∈ (exportFilterImportTrace filterErr expErr impErr).1 →
      (exportFilterImportTrace filterErr expErr impErr).1.take 3
        = [EfiEvent.recvFilterDone, EfiEvent.waitExport, EfiEvent.waitImport]) := by
  cases expErr <;> cases filterErr <;> cases impErr <;>
    simp [exportFilterImportTrace]

/-- Witness for C10 at the all-successful run. -/
theorem C10_wait_order_witness :
    (exportFilterImportTrace none none none).1.take 3
      = [EfiEvent.recvFilterDone, EfiEvent.waitExport, EfiEvent.waitImport] :=
  (C10_wait_order none none none).2 (by decide)

/-- C5: for every (necessarily non-empty) match of a substitution pattern:
if all cased characters of the match are lowercase the replacement is
emitted lowercased; else if all cased characters are uppercase it is
emitted uppercased; else if the match begins with an uppercase letter and
all subsequent cased characters are lowercase it is emitted in title case
(first letter of the lowercased replacement capitalized); otherwise it is
emitted verbatim (`applyCasePattern` in `rules.go`).  A character is cased
when it is an ASCII letter; "all cased characters are lowercase" is
"no character is uppercase", and symmetrically. -/
theorem C5_case_pattern (m repl : Str) (hne : m ≠ []) :
    ((∀ c ∈ m, isUpperA c = false) → applyCasePattern m repl = toLowerS repl) ∧
    (¬(∀ c ∈ m, isUpperA c = false) → (∀ c ∈ m, isLowerA c = false) →
      applyCasePattern m repl = toUpperS repl) ∧
    (¬(∀ c ∈ m, isUpperA c = false) → ¬(∀ c ∈ m, isLowerA c = false) →
      ∀ c0 t, m = c0 :: t → isUpperA c0 = true → (∀ c ∈ t, isUpperA c = false) →
      applyCasePattern m repl =
        (match toLowerS repl with
         | [] => []
         | c :: cs => (if isLowerA c then upperA c else c) :: cs)) ∧
    (¬(∀ c ∈ m, isUpperA c = false) → ¬(∀ c ∈ m, isLowerA c = false) →
      ∀ c0 t, m = c0 :: t → ¬(isUpperA c0 = true ∧ ∀ c ∈ t, isUpperA c = false) →
      applyCasePattern m repl = repl) := by
  have hlen : ¬ m.length = 0 := by simpa using hne
  refine ⟨?_, ?_, ?_, ?_⟩
  · intro h1
    have hall : m.all (fun r => !isUpperA r) = true := by
      simp only [List.all_eq_true, Bool.not_eq_eq_eq_not, Bool.not_true]
      exact h1
    simp [applyCasePattern, hlen, hall]
  · intro h1 h2
    have hall : m.all (fun r => !isUpperA r) = false := by
      by_contra hc
      exact h1 fun c hc2 => by
        have := (List.all_eq_true.mp (Bool.of_not_eq_false hc)) c hc2
        simpa using this
    have hup : m.all (fun r => !isLowerA r) = true := by
      simp only [List.all_eq_true, Bool.not_eq_eq_eq_not, Bool.not_true]
      exact h2
    simp [applyCasePattern, hlen, hall, hup]
  · intro h1 h2 c0 t hm hc0 ht
    have hall : m.all (fun r => !isUpperA r) = false := by
      by_contra hc
      exact h1 fun c hc2 => by
        have := (List.all_eq_true.mp (Bool.of_not_eq_false hc)) c hc2
        simpa using this
    have hup : m.all (fun r => !isLowerA r) = false := by
      by_contra hc
      exact h2 fun c hc2 => by
        have := (List.all_eq_true.mp (Bool.of_not_eq_false hc)) c hc2
        simpa using this
    have htall : t.all (fun r => !isUpperA r) = true := by
      simp only [List.all_eq_true, Bool.not_eq_eq_eq_not, Bool.not_true]
      exact ht
    subst hm
    simp [applyCasePattern, hlen, hall, hup, hc0, htall]
  · intro h1 h2 c0 t hm hnt
    have hall : m.all (fun r => !isUpperA r) = false := by
      by_contra hc
      exact h1 fun c hc2 => by
        have := (List.all_eq_true.mp (Bool.of_not_eq_false hc)) c hc2
        simpa using this
    have hup : m.all (fun r => !isLowerA r) = false := by
      by_contra hc
      exact h2 fun c hc2 => by
        have := (List.all_eq_true.mp (Bool.of_not_eq_false hc)) c hc2
        simpa using this
    have hcond : (isUpperA c0 && t.all (fun r => !isUpperA r)) = false := by
      by_contra hc
      have hc' := Bool.of_not_eq_false hc
      have h3 := Bool.and_elim_left hc'
      have h4 := Bool.and_elim_right hc'
      exact hnt ⟨h3, fun c hc2 => by
        have := (List.all_eq_true.mp h4) c hc2
        simpa using this⟩
    subst hm
    simp [applyCasePattern, hlen, hall, hup, hcond]

/-- Witness for C5: the four branches at concrete matches of the
pattern `johndoe` against `ab`, `AB`, `Ab` and `aB`. -/
theorem C5_case_pattern_witness :
    applyCasePattern "ab".toList "johnDoe".toList = toLowerS "johnDoe".toList ∧
    applyCasePattern "AB".toList "johnDoe".toList = toUpperS "johnDoe".toList ∧
    applyCasePattern "Ab".toList "johnDoe".toList = "Johndoe".toList ∧
    applyCasePattern "aB".toList "johnDoe".toList = "johnDoe".toList := by
  refine ⟨(C5_case_pattern "ab".toList "johnDoe".toList (by decide)).1 (by decide), ?_, ?_, ?_⟩
  · exact (C5_case_pattern "AB".toList "johnDoe".toList (by decide)).2.1 (by decide) (by decide)
  · have h := (C5_case_pattern "Ab".toList "johnDoe".toList (by decide)).2.2.1 (by decide)
      (by decide) 'A' "b".toList (by decide) (by decide) (by decide)
    rw [h]
    decide
  · exact (C5_case_pattern "aB".toList "johnDoe".toList (by decide)).2.2.2 (by decide)
      (by decide) 'a' "B".toList (by decide) (by decide)

/-- C7: for every `R` (rename) and `C` (copy) file operation reached by
`filterOps`: source excluded and destination not → the filter fails with
the unsafe-rename/copy error (and `handleCommit` propagates it, so
filtering terminates); destination excluded → the operation is dropped;
otherwise it is emitted with both paths rewritten through the substitution
pipeline. -/
theorem C7_rename_copy (st : FState) (oldP newP : Str) (rest : List FileOp) :
    (st.rules.ShouldExclude oldP = true → st.rules.ShouldExclude newP = false →
      filterOps st (.R oldP newP :: rest) = .error (unsafeRenameMsg oldP newP)) ∧
    (st.rules.ShouldExclude newP = true →
      filterOps st (.R oldP newP :: rest) = filterOps st rest) ∧
    (st.rules.ShouldExclude oldP = false → st.rules.ShouldExclude newP = false →
      filterOps st (.R oldP newP :: rest) =
        (filterOps st rest).map fun x =>
          (.R (st.rules.RewriteString oldP) (st.rules.RewriteString newP) :: x.1,
            x.2.1 + 1, x.2.2)) ∧
    (st.rules.ShouldExclude oldP = true → st.rules.ShouldExclude newP = false →
      filterOps st (.C oldP newP :: rest) = .error (unsafeCopyMsg oldP newP)) ∧
    (st.rules.ShouldExclude newP = true →
      filterOps st (.C oldP newP :: rest) = filterOps st rest) ∧
    (st.rules.ShouldExclude oldP = false → st.rules.ShouldExclude newP = false →
      filterOps st (.C oldP newP :: rest) =
        (filterOps st rest).map fun x =>
          (.C (st.rules.RewriteString oldP) (st.rules.RewriteString newP) :: x.1,
            x.2.1 + 1, x.2.2)) ∧
    (∀ c st1 e, checkRefCollision st c.ref (rewriteRef st c.ref) = .ok st1 →
      filterOps (preOpState st1 c) c.ops = .error e →
      handleCommitEmit st c = .error e) := by
  refine ⟨?_, ?_, ?_, ?_, ?_, ?_, ?_⟩
  · intro h1 h2
    simp [filterOps, h1, h2]
  · intro h2
    by_cases h1 : st.rules.ShouldExclude oldP = true
    · simp [filterOps, h1, h2]
    · simp only [Bool.not_eq_true] at h1
      simp [filterOps, h1, h2]
  · intro h1 h2
    cases hfo : filterOps st rest with
    | ok v => simp [filterOps, h1, h2, hfo, Except.map, Bind.bind, Except.bind]
    | error e => simp [filterOps, h1, h2, hfo, Except.map, Bind.bind, Except.bind]
  · intro h1 h2
    simp [filterOps, h1, h2]
  · intro h2
    by_cases h1 : st.rules.ShouldExclude oldP = true
    · simp [filterOps, h1, h2]
    · simp only [Bool.not_eq_true] at h1
      simp [filterOps, h1, h2]
  · intro h1 h2
    cases hfo : filterOps st rest with
    | ok v => simp [filterOps, h1, h2, hfo, Except.map, Bind.bind, Except.bind]
    | error e => simp [filterOps, h1, h2, hfo, Except.map, Bind.bind, Except.bind]
  · intro c st1 e hcol hfo
    simp [handleCommitEmit, hcol, hfo, Bind.bind, Except.bind]

unseal replaceCI matchSeg classRanges in
/-- Witness for C7 at the repository's own `S2` scenario
(`R .env public.txt` under an exclusion of `.env`). -/
theorem C7_rename_copy_witness :
    filterOps exState [.R ".env".toList "public.txt".toList]
      = .error (unsafeRenameMsg ".env".toList "public.txt".toList) :=
  (C7_rename_copy exState ".env".toList "public.txt".toList []).1 (by decide) (by decide)

/-- C2: a commit whose post-filter operation list is empty (`kept = 0`) and
whose merge list is empty is elided: the filter emits exactly
`reset <rewritten ref>`, then `from <resolved parent>` exactly when the
resolved parent is non-empty, then the blank terminator — in particular no
`commit` record, so no ref advances to the skipped commit — and the
commit's mark is remapped to the resolved parent (empty when the parent is
unborn). -/
theorem C2_elided_commit (st st1 : FState) (c : CommitRec) (fops : List FileOp)
    (st2 : FState) (pr : Str)
    (hm : c.merges = [])
    (hcol : checkRefCollision st c.ref (rewriteRef st c.ref) = .ok st1)
    (hf : filterOps (preOpState st1 c) c.ops = .ok (fops, 0, st2))
    (hpr : pr = if c.parent ≠ [] then resolveCommitRef (preOpState st1 c) c.parent else []) :
    handleCommitEmit st c = .ok
      ([OutRec.resetR (rewriteRef st c.ref)]
        ++ (if pr ≠ [] then [OutRec.fromR pr] else [])
        ++ [OutRec.blank],
        if c.mark ≠ [] then { st2 with markMap := insertA st2.markMap c.mark pr } else st2) ∧
    (∀ ref', OutRec.commitR ref' ∉
      ([OutRec.resetR (rewriteRef st c.ref)]
        ++ (if pr ≠ [] then [OutRec.fromR pr] else [])
        ++ [OutRec.blank])) ∧
    (c.mark ≠ [] →
      lookupA (insertA st2.markMap c.mark pr) c.mark = some pr) := by
  refine ⟨?_, ?_, fun _ => lookupA_insert _ _ _⟩
  · simp [handleCommitEmit, hcol, hf, hm, Bind.bind, Except.bind, hpr]
  · intro ref'
    by_cases hp : pr ≠ [] <;> simp [hp]

unseal replaceCI matchSeg classRanges in
/-- Witness for C2 at the `S1` scenario: the `.env`-only commit is elided
and its mark `:2` is remapped to the resolved parent `:1`. -/
theorem C2_elided_commit_witness :
    handleCommitEmit exState exCommitC2 = .ok
      ([OutRec.resetR (rewriteRef exState exCommitC2.ref)]
        ++ [OutRec.fromR ":1".toList]
        ++ [OutRec.blank],
        { (preOpState (collisionStep exState exCommitC2.ref (rewriteRef exState exCommitC2.ref))
            exCommitC2) with
          markMap := insertA (preOpState (collisionStep exState exCommitC2.ref
            (rewriteRef exState exCommitC2.ref)) exCommitC2).markMap ":2".toList ":1".toList }) := by
  have h := (C2_elided_commit exState
    (collisionStep exState exCommitC2.ref (rewriteRef exState exCommitC2.ref))
    exCommitC2 []
    (preOpState (collisionStep exState exCommitC2.ref (rewriteRef exState exCommitC2.ref))
      exCommitC2)
    ":1".toList
    (by decide) (by decide) (by decide) (by decide)).1
  rw [h]
  decide

theorem trimS_nn (c : Char) (r t : Str) (hc : isSpaceA c = false) :
    trimS ((c :: r) ++ '/' :: t) = (c :: r) ++ '/' :: (t.reverse.dropWhile isSpaceA).reverse := by
  unfold trimS
  rw [List.cons_append, List.dropWhile_cons_of_neg (by simp [hc])]
  rw [show (c :: (r ++ '/' :: t)).reverse = t.reverse ++ ('/' :: (c :: r).reverse) by
    simp [List.reverse_cons, List.reverse_append, List.append_assoc]]
  rw [List.dropWhile_append]
  split
  · rename_i hemp
    rw [List.dropWhile_cons_of_neg (by simp [isSpaceA])]
    simp only [List.isEmpty_iff] at hemp
    rw [hemp]
    simp
  · rw [List.reverse_append]
    simp
theorem mapSlash_id : ∀ l : Str, (∀ x ∈ l, x ≠ '\\') →
    l.map (fun c => if c = '\\' then '/' else c) = l := by
  intro l h
  induction l with
  | nil => rfl
  | cons a as ih =>
    simp only [List.map_cons]
    rw [if_neg (h a (by simp)), ih fun x hx => h x (by simp [hx])]

theorem normPath_no_bs (p : Str) : ∀ x ∈ normPath p, x ≠ '\\' := by
  intro x hx
  simp only [normPath] at hx
  split at hx
  · simp at hx
  · obtain ⟨y, _, hy⟩ := List.mem_map.mp hx
    intro he
    rw [he] at hy
    by_cases hc : y = '\\'
    · simp [hc] at hy
    · simp [hc] at hy

theorem trimPre_ne (a b : Char) (hb : b ≠ '/') (x : Str) :
    trimPre "./".toList (a :: b :: x) = a :: b :: x := by
  unfold trimPre hasPre
  rw [if_neg]
  intro hcon
  rw [show "./".toList = ['.', '/'] from rfl] at hcon
  simp only [List.isPrefixOf, Bool.and_eq_true, beq_iff_eq] at hcon
  exact hb hcon.2.1.symm

theorem hasPre_append (a x : Str) : hasPre a (a ++ x) = true := by
  unfold hasPre
  exact List.isPrefixOf_iff_prefix.mpr ⟨x, rfl⟩

theorem mem_trimR {x : Char} {t : Str} (h : x ∈ (t.reverse.dropWhile isSpaceA).reverse) : x ∈ t := by
  rw [List.mem_reverse] at h
  have hs := List.dropWhile_sublist (l := t.reverse) (p := isSpaceA)
  have := hs.mem h
  rwa [List.mem_reverse] at this

theorem normPath_of_pre (p : Str) (c2 : Char) (drest t : Str)
    (hc2 : c2 ≠ '/')
    (heq : normPath p = ('.' :: c2 :: drest) ++ '/' :: t) :
    normPath (normPath p) =
      ('.' :: c2 :: drest) ++ '/' :: (t.reverse.dropWhile isSpaceA).reverse := by
  have hnb := normPath_no_bs p
  rw [heq] at hnb ⊢
  simp only [normPath]
  rw [trimS_nn '.' (c2 :: drest) t (by decide)]
  rw [if_neg (by simp)]
  rw [show ('.' :: c2 :: drest) ++ '/' :: (t.reverse.dropWhile isSpaceA).reverse
      = '.' :: c2 :: (drest ++ '/' :: (t.reverse.dropWhile isSpaceA).reverse) by simp]
  rw [trimPre_ne '.' c2 hc2]
  rw [mapSlash_id]
  intro x hx
  simp only [List.mem_cons, List.mem_append] at hx
  apply hnb
  rcases hx with h | h | h | h
  · simp [h]
  · simp [h]
  · simp [h]
  · rcases h with h2 | h2
    · simp [h2]
    · have := mem_trimR h2
      simp [this]

theorem hasPre_colon_ne {x : Str} (h : hasPre ":".toList x = true) : x ≠ [] := by
  intro he
  subst he
  simp [hasPre, List.isPrefixOf] at h

/-- `handleCommitEmit` on a chain commit (no operations, no merges,
non-empty mark): the commit is elided and the mark table is extended. -/
theorem handleCommit_chain {st : FState} {ref m p : Str} {out : List OutRec} {st' : FState}
    (hm : m ≠ [])
    (h : handleCommitEmit st (chainCommit ref m p) = .ok (out, st')) :
    ∃ st1, checkRefCollision st ref (rewriteRef st ref) = .ok st1 ∧
      st' = { st1 with markMap := insertA (insertA st1.markMap m m) m (chainPr st1 m p) } := by
  unfold handleCommitEmit at h
  simp only [chainCommit] at h
  cases hc : checkRefCollision st ref (rewriteRef st ref) with
  | error e =>
    rw [hc] at h
    simp [Bind.bind, Except.bind] at h
  | ok st1 =>
    rw [hc] at h
    refine ⟨st1, rfl, ?_⟩
    simp [Bind.bind, Except.bind, preOpState, filterOps, hm, chainPr] at h
    rw [← h.2]
    simp [chainPr]

/-- Walking an all-elided chain extends the mark table so that every chain
mark (in particular the last) resolves to the seed value `r`. -/
theorem processElidedChain_lookup :
    ∀ (marks : List Str) (st : FState) (ref prev r : Str) (st' : FState),
    (∀ x ∈ marks, hasPre ":".toList x = true ∧ trimS x = x) →
    marks.Nodup → prev ∉ marks →
    (hasPre ":".toList prev = true ∧ trimS prev = prev) →
    lookupA st.markMap prev = some r →
    processElidedChain st ref prev marks = .ok st' →
    ∀ lastm, (prev :: marks).getLast? = some lastm → lookupA st'.markMap lastm = some r := by
  intro marks
  induction marks with
  | nil =>
    intro st ref prev r st' _ _ _ _ hr hrun lastm hlast
    simp only [processElidedChain] at hrun
    cases hrun
    simp only [List.getLast?_singleton, Option.some.injEq] at hlast
    subst hlast
    exact hr
  | cons m rest ih =>
    intro st ref prev r st' hmk hnd hprev hprevOk hr hrun lastm hlast
    simp only [processElidedChain, Bind.bind, Except.bind] at hrun
    cases hh : handleCommitEmit st (chainCommit ref m prev) with
    | error e => rw [hh] at hrun; exact absurd hrun (by simp)
    | ok v =>
      rw [hh] at hrun
      obtain ⟨o, stA⟩ := v
      replace hrun : processElidedChain stA ref m rest = Except.ok st' := hrun
      have hmne : m ≠ [] := hasPre_colon_ne (hmk m (by simp)).1
      obtain ⟨st1, _, hstA⟩ := handleCommit_chain hmne hh
      have hmm := (checkRefCollision_ok (by assumption)).1
      -- the parent (the previous mark) resolves to `r`
      have hprevm : prev ≠ m := by
        intro he
        exact hprev (he ▸ List.mem_cons_self m rest)
      have hlook2 : lookupA (insertA st1.markMap m m) prev = some r := by
        rw [lookupA_insert_ne _ _ _ _ hprevm, hmm]
        exact hr
      have hpre1 : hasPre [':'] prev = true := hprevOk.1
      have hpr : chainPr st1 m prev = r := by
        unfold chainPr
        rw [if_pos (hasPre_colon_ne hprevOk.1)]
        unfold resolveCommitRef
        simp only [hprevOk.2, hprevOk.1, hpre1, if_true]
        simp [hlook2]
      rw [hpr] at hstA
      have hlookA : lookupA stA.markMap m = some r := by
        rw [hstA]
        exact lookupA_insert _ _ _
      have := ih stA ref m r st' (fun x hx => hmk x (by simp [hx]))
        (List.Nodup.of_cons hnd)
        (by intro hc; exact (List.nodup_cons.mp hnd).1 hc)
        (hmk m (by simp)) hlookA hrun
      exact this lastm (by rwa [List.getLast?_cons_cons] at hlast)

/-- C3: along any parent chain (length ≥ 1) in which every commit is
elided, the mark table resolves the bottom-most commit's mark to the
reference of the nearest non-elided ancestor (a mark that still maps to
itself, a raw object id / ref name, or the empty string when the chain
starts at an unborn parent); moreover a `:N` reference absent from the
table resolves to itself and a non-mark reference resolves unchanged
(`resolveCommitRef` plus the elision updates of `handleCommit`). -/
theorem C3_mark_chain (st : FState) (ref p0 : Str) (marks : List Str) (st' : FState)
    (lastm : Str)
    (hmk : ∀ x ∈ marks, hasPre ":".toList x = true ∧ trimS x = x)
    (hnd : marks.Nodup)
    (hp0 : p0 ∉ marks)
    (hptrim : trimS p0 = p0)
    (hseed : p0 = [] ∨ hasPre ":".toList p0 = false ∨ lookupA st.markMap p0 = some p0)
    (hrun : processElidedChain st ref p0 marks = .ok st')
    (hlast : marks.getLast? = some lastm) :
    resolveCommitRef st' lastm = (if p0 = [] then [] else p0) ∧
    (∀ (stx : FState) (r : Str), trimS r = r → hasPre ":".toList r = true →
      lookupA stx.markMap r = none → resolveCommitRef stx r = r) ∧
    (∀ (stx : FState) (r : Str), trimS r = r → hasPre ":".toList r = false →
      resolveCommitRef stx r = r) := by
  refine ⟨?_, ?_, ?_⟩
  · cases marks with
    | nil => simp at hlast
    | cons m rest =>
      simp only [processElidedChain, Bind.bind, Except.bind] at hrun
      cases hh : handleCommitEmit st (chainCommit ref m p0) with
      | error e => rw [hh] at hrun; exact absurd hrun (by simp)
      | ok v =>
        rw [hh] at hrun
        obtain ⟨o, stA⟩ := v
        replace hrun : processElidedChain stA ref m rest = Except.ok st' := hrun
        have hmne : m ≠ [] := hasPre_colon_ne (hmk m (by simp)).1
        obtain ⟨st1, _, hstA⟩ := handleCommit_chain hmne hh
        have hmm := (checkRefCollision_ok (by assumption)).1
        have hp0m : p0 ≠ m := by
          intro he
          exact hp0 (he ▸ List.mem_cons_self m rest)
        have hpr : chainPr st1 m p0 = (if p0 = [] then [] else p0) := by
          unfold chainPr
          rcases hseed with h0 | h0 | h0
          · simp [h0]
          · have h0p : hasPre [':'] p0 = false := h0
            rcases eq_or_ne p0 [] with he | he
            · simp [he]
            · rw [if_pos he, if_neg he]
              unfold resolveCommitRef
              simp [hptrim, h0, h0p]
          · rcases eq_or_ne p0 [] with he | he
            · simp [he]
            · rw [if_pos he, if_neg he]
              unfold resolveCommitRef
              simp only [hptrim]
              split
              · rw [lookupA_insert_ne _ _ _ _ hp0m, hmm, h0]
              · rfl
        rw [hpr] at hstA
        have hlookA : lookupA stA.markMap m = some (if p0 = [] then [] else p0) := by
          rw [hstA]
          exact lookupA_insert _ _ _
        have hres := processElidedChain_lookup rest stA ref m
          (if p0 = [] then [] else p0) st'
          (fun x hx => hmk x (by simp [hx]))
          (List.Nodup.of_cons hnd)
          (by intro hc; exact (List.nodup_cons.mp hnd).1 hc)
          (hmk m (by simp)) hlookA hrun lastm
          (by
            cases rest with
            | nil => simpa using hlast
            | cons b l => rwa [List.getLast?_cons_cons])
        have hlmem : lastm ∈ m :: rest := by
          obtain ⟨hne2, he2⟩ := List.mem_getLast?_eq_getLast (l := m :: rest) (x := lastm)
            (by rw [Option.mem_def]; exact hlast)
          rw [he2]
          exact List.getLast_mem hne2
        have hlOk := hmk lastm hlmem
        have hlp : hasPre [':'] lastm = true := hlOk.1
        unfold resolveCommitRef
        simp [hlOk.2, hlOk.1, hlp, hres]
  · intro stx r htrim hpre hnone
    have hpre2 : hasPre [':'] r = true := hpre
    have hnone2 : lookupA stx.markMap r = none := hnone
    unfold resolveCommitRef
    simp [htrim, hpre, hpre2, hnone2]
  · intro stx r htrim hpre
    have hpre2 : hasPre [':'] r = false := hpre
    unfold resolveCommitRef
    simp [htrim, hpre, hpre2]

unseal replaceCI matchSeg classRanges in
/-- Witness for C3: the chain `:1`, `:2` of elided commits above the
non-elided ancestor `:0` resolves `:2` to `:0`. -/
theorem C3_mark_chain_witness :
    resolveCommitRef exChainResult ":2".toList = ":0".toList := by
  have h := (C3_mark_chain exStateC3 "refs/heads/main".toList ":0".toList
    [":1".toList, ":2".toList] exChainResult ":2".toList
    (by decide) (by decide) (by decide) (by decide)
    (by right; right; decide) (by decide) (by decide)).1
  rw [h]
  decide

/-- C9: for every compiled ruleset, whatever the configured exclude
patterns and opt-in paths, `ShouldExclude` is true for every path inside a
non-negotiable directory (after normalization the path equals the
directory name or has it as a leading segment, i.e. `IsNonNegotiablePath`
holds); and `Compile` discards opt-in entries inside non-negotiable
directories, so the compiled opt-in set cannot override this. -/
theorem C9_non_negotiable :
    (∀ (c : CompiledRules) (p : Str), IsNonNegotiablePath p = true →
      c.ShouldExclude p = true) ∧
    (∀ (r : Rules) (c : CompiledRules), Compile r = .ok c →
      ∀ q ∈ c.optIn, IsNonNegotiablePath q = false) := by
  constructor
  · intro c p hp
    suffices hs : IsNonNegotiablePath (normPath p) = true by
      unfold CompiledRules.ShouldExclude
      simp [hs]
    simp only [IsNonNegotiablePath, NonNegotiableDirs, List.any_cons, List.any_nil,
      Bool.or_false, Bool.or_eq_true, beq_iff_eq] at hp
    rcases hp with (heq | hpre) | (heq | hpre)
    · rw [heq]; decide
    · obtain ⟨t, ht⟩ := List.isPrefixOf_iff_prefix.mp hpre
      have heq : normPath p = ('.' :: 'g' :: "it-copy".toList) ++ '/' :: t := by
        rw [← ht]; simp
      have h2 := normPath_of_pre p 'g' "it-copy".toList t (by decide) heq
      have h3 : hasPre (".git-copy".toList ++ ['/'])
          (('.' :: 'g' :: "it-copy".toList) ++ '/' :: (t.reverse.dropWhile isSpaceA).reverse)
          = true := by
        rw [show ('.' :: 'g' :: "it-copy".toList) ++ '/' :: (t.reverse.dropWhile isSpaceA).reverse
          = (".git-copy".toList ++ ['/']) ++ (t.reverse.dropWhile isSpaceA).reverse by simp]
        exact hasPre_append _ _
      simp only [IsNonNegotiablePath, NonNegotiableDirs, h2, List.any_cons, List.any_nil,
        Bool.or_false, Bool.or_eq_true, beq_iff_eq]
      left
      right
      simpa using h3
    · rw [heq]; decide
    · obtain ⟨t, ht⟩ := List.isPrefixOf_iff_prefix.mp hpre
      have heq : normPath p = ('.' :: 'c' :: "laude".toList) ++ '/' :: t := by
        rw [← ht]; simp
      have h2 := normPath_of_pre p 'c' "laude".toList t (by decide) heq
      have h3 : hasPre (".claude".toList ++ ['/'])
          (('.' :: 'c' :: "laude".toList) ++ '/' :: (t.reverse.dropWhile isSpaceA).reverse)
          = true := by
        rw [show ('.' :: 'c' :: "laude".toList) ++ '/' :: (t.reverse.dropWhile isSpaceA).reverse
          = (".claude".toList ++ ['/']) ++ (t.reverse.dropWhile isSpaceA).reverse by simp]
        exact hasPre_append _ _
      simp only [IsNonNegotiablePath, NonNegotiableDirs, h2, List.any_cons, List.any_nil,
        Bool.or_false, Bool.or_eq_true, beq_iff_eq]
      right
      right
      simpa using h3
  · intro r c hc q hq
    simp only [Compile] at hc
    split at hc
    · exact absurd hc (by simp)
    · split at hc
      · exact absurd hc (by simp)
      · split at hc
        · exact absurd hc (by simp)
        · rw [Except.ok.injEq] at hc
          subst hc
          simp only at hq
          obtain ⟨a, ha, hfa⟩ := List.mem_filterMap.mp hq
          split at hfa
          · exact absurd hfa (by simp)
          · rename_i hcond
            rw [Option.some.injEq] at hfa
            subst hfa
            push_neg at hcond
            exact Bool.not_eq_true _ ▸ hcond.2


unseal replaceCI matchSeg classRanges in
/-- Witness for C9: `.git-copy/config.json` is excluded by the `S1`
ruleset, and the compiled opt-ins of a ruleset that tried to opt in
`.git-copy/creds.json` contain no non-negotiable path. -/
theorem C9_non_negotiable_witness :
    (compiledOf exRules).ShouldExclude ".git-copy/config.json".toList = true ∧
    IsNonNegotiablePath ".env".toList = false := by
  constructor
  · exact C9_non_negotiable.1 (compiledOf exRules) ".git-copy/config.json".toList (by decide)
  · exact C9_non_negotiable.2 exRulesC9 (compiledOf exRulesC9) (by decide)
      ".env".toList (by decide)

theorem validatePhase2_ok {priv : Str} : ∀ (os : List ObjectRec),
    validatePhase2 priv os = .ok () →
    ∀ o ∈ os, containsCI priv o.payload = false ∧ containsCI priv o.header = false := by
  intro os
  induction os with
  | nil => intro _ o ho; simp at ho
  | cons a as ih =>
    intro h o ho
    simp only [validatePhase2] at h
    split at h
    · exact absurd h (by simp)
    · rename_i hcond
      rw [Bool.or_eq_true] at hcond
      push_neg at hcond
      rcases List.mem_cons.mp ho with he | hm
      · subst he
        exact ⟨Bool.not_eq_true _ ▸ hcond.1, Bool.not_eq_true _ ▸ hcond.2⟩
      · exact ih h o hm

/-- C1 (amended): when `ValidateScrubbedRepo` accepts a repository under a
non-empty private username, no scanned object's payload or header — in
particular no reachable blob — contains the username case-insensitively.
(The original claim also asserted this for rewritten ref names, which the
validator does not inspect; see the counterexample.) -/
theorem C1_validated_objects_clean (priv : Str) (forbidden : List Str) (repo : RepoModel)
    (hp : priv ≠ [])
    (hv : ValidateScrubbedRepo priv forbidden repo = .ok ()) :
    ∀ o ∈ repo.objects, containsCI priv o.payload = false ∧ containsCI priv o.header = false := by
  unfold ValidateScrubbedRepo at hv
  rw [if_neg hp] at hv
  cases h1 : validatePhase1 forbidden repo.refs with
  | error e => rw [h1] at hv; exact absurd hv (by simp [Bind.bind, Except.bind])
  | ok u =>
    rw [h1] at hv
    obtain ⟨⟩ := u
    replace hv : validatePhase2 priv repo.objects = .ok () := hv
    exact validatePhase2_ok repo.objects hv

/-- Witness for the amended C1 at the concrete one-object repository. -/
theorem C1_validated_objects_clean_witness :
    containsCI "ab".toList "hello".toList = false ∧
    containsCI "ab".toList "0123 blob 5".toList = false :=
  C1_validated_objects_clean "ab".toList [] cexRepoC1 (by decide) (by decide)
    { header := "0123 blob 5".toList, payload := "hello".toList } (by decide)

unseal replaceCI in
/-- C1 counterexample: with private username `ab` and replacement `b`
(accepted by `Compile`), the rewrite of the ref name `refs/heads/aab` is
`refs/heads/ab`, which still contains the private username
case-insensitively, and the repository whose only branch carries this
rewritten name while every object is clean passes `ValidateScrubbedRepo`.
So a successfully validated and published sync can leave a rewritten ref
name containing the private username. -/
theorem C1_counterexample :
    Compile cexRulesC1 = .ok (compiledOf cexRulesC1) ∧
    (compiledOf cexRulesC1).RewriteString "refs/heads/aab".toList = "refs/heads/ab".toList ∧
    containsCI "ab".toList "refs/heads/ab".toList = true ∧
    ValidateScrubbedRepo "ab".toList [] cexRepoC1 = .ok () ∧
    cexRepoC1.refs.map RefTree.name
      = [(compiledOf cexRulesC1).RewriteString "refs/heads/aab".toList] := by
  refine ⟨by decide, by decide, by decide, by decide, by decide⟩

/-- C6 (amended): the substitution pipeline applies the private-username
pattern first and then each extra-replacement pattern in the order the
compiled rules hold them, and `Compile` builds that order from the order
in which Go map iteration delivers the entries (dropping blank keys).
Since Go leaves map iteration order unspecified, the extra patterns are
not guaranteed to run in the order the user configured them, and the
output is deterministic only for a fixed iteration order (see the
counterexample). -/
theorem C6_pipeline_order :
    (∀ (r : Rules) (c : CompiledRules), Compile r = .ok c →
      c.extra = r.extraReplacements.filterMap fun kv =>
        if trimS kv.1 = [] then none else some (trimS kv.1, kv.2)) ∧
    (∀ (c : CompiledRules) (s : Str),
      c.RewriteString s = c.extra.foldl (fun out kv => replaceCI kv.1 kv.2 out)
        (replaceCI c.privateU c.repl s)) := by
  constructor
  · intro r c hc
    simp only [Compile] at hc
    split at hc
    · exact absurd hc (by simp)
    · split at hc
      · exact absurd hc (by simp)
      · split at hc
        · exact absurd hc (by simp)
        · rw [Except.ok.injEq] at hc
          subst hc
          rfl
  · intro c s
    rfl

unseal replaceCI in
/-- Witness for the amended C6 at a concrete compilation. -/
theorem C6_pipeline_order_witness :
    (compiledOf cexRulesC6a).extra
      = [("ab".toList, "x".toList), ("b".toList, "y".toList)] ∧
    (compiledOf cexRulesC6a).RewriteString "ab".toList
      = (compiledOf cexRulesC6a).extra.foldl (fun out kv => replaceCI kv.1 kv.2 out)
        (replaceCI (compiledOf cexRulesC6a).privateU (compiledOf cexRulesC6a).repl "ab".toList) := by
  constructor
  · rw [C6_pipeline_order.1 cexRulesC6a (compiledOf cexRulesC6a) (by decide)]
    decide
  · exact C6_pipeline_order.2 (compiledOf cexRulesC6a) "ab".toList

unseal replaceCI in
/-- C6 counterexample: the same extra-replacement map entries delivered in
two different iteration orders compile successfully and rewrite the same
input `ab` to different outputs (`x` versus `ay`), so the pipeline's
output is not determined by the configuration alone. -/
theorem C6_counterexample :
    cexRulesC6a.extraReplacements.Perm cexRulesC6b.extraReplacements ∧
    cexRulesC6a.privateUsername = cexRulesC6b.privateUsername ∧
    cexRulesC6a.replacement = cexRulesC6b.replacement ∧
    Compile cexRulesC6a = .ok (compiledOf cexRulesC6a) ∧
    Compile cexRulesC6b = .ok (compiledOf cexRulesC6b) ∧
    (compiledOf cexRulesC6a).RewriteString "ab".toList = "x".toList ∧
    (compiledOf cexRulesC6b).RewriteString "ab".toList = "ay".toList ∧
    "x".toList ≠ ("ay".toList : Str) := by
  refine ⟨by decide, by decide, by decide, by decide, by decide, by decide, by decide, by decide⟩

/-- C8 (amended): the per-target driver reports no work (`DidWork=false`,
empty action trace) exactly when the stored `last_private_refs` equals the
fresh reference fingerprint, the stored `last_config_hash` equals the
fresh rule fingerprint, and `last_error` is empty; when it does proceed
and rule compilation succeeds, the export, filter and import are
performed; and the rule fingerprint is computed over sorted
exclude/opt-in/collapse lists, so reordering those lists does not change
it (no rebuild is forced).  The original claim's "performs no export,
filtering, validation or publication if and only if" fails in the
only-if direction: a rule-compilation failure also performs none of those
although the skip condition is false (see the counterexample). -/
theorem mergeSort_perm_eq {l1 l2 : List String} (hp : l1.Perm l2) :
    l1.mergeSort = l2.mergeSort := by
  apply List.eq_of_perm_of_sorted (r := fun a b : String => a ≤ b)
  · exact (List.mergeSort_perm l1 _).trans (hp.trans (List.mergeSort_perm l2 _).symm)
  · exact List.sorted_mergeSort' _
  · exact List.sorted_mergeSort' _

theorem C8_skip_decision (h : ConfigHashPayload → String) (cfg : RepoConfigM) (t : TargetM)
    (ts : TargetState) (refsHash : String) (rh : List (String × String))
    (pOk vOk : Bool) :
    ((syncStep h cfg t ts refsHash rh pOk vOk).2 = false ↔
      skipTarget ts refsHash (targetConfigHash h cfg t) = true) ∧
    (skipTarget ts refsHash (targetConfigHash h cfg t) = true →
      (syncStep h cfg t ts refsHash rh pOk vOk).1 = []) ∧
    (skipTarget ts refsHash (targetConfigHash h cfg t) = false →
      ∀ c, Compile (rulesOf cfg t rh) = .ok c →
        SyncAction.exportA ∈ (syncStep h cfg t ts refsHash rh pOk vOk).1 ∧
        SyncAction.filterA ∈ (syncStep h cfg t ts refsHash rh pOk vOk).1 ∧
        SyncAction.importA ∈ (syncStep h cfg t ts refsHash rh pOk vOk).1) ∧
    (∀ (de2 do2 dr2 te2 to2 tr2 : List String),
      de2.Perm cfg.defaults.exclude → do2.Perm cfg.defaults.optIn →
      dr2.Perm cfg.defaults.replaceHistoryWithCurrent →
      te2.Perm t.exclude → to2.Perm t.optIn → tr2.Perm t.replaceHistoryWithCurrent →
      targetConfigHash h
        { cfg with defaults :=
          { cfg.defaults with exclude := de2, optIn := do2, replaceHistoryWithCurrent := dr2 } }
        { t with exclude := te2, optIn := to2, replaceHistoryWithCurrent := tr2 }
        = targetConfigHash h cfg t) := by
  refine ⟨?_, ?_, ?_, ?_⟩
  · unfold syncStep
    split
    · rename_i hsk
      simp [hsk]
    · rename_i hsk
      simp only [Bool.not_eq_true] at hsk
      simp [hsk]
  · intro hsk
    unfold syncStep
    simp [hsk]
  · intro hsk c hc
    cases pOk <;> cases vOk <;>
      simp [syncStep, hsk, syncTargetActions, hc]
  · intro de2 do2 dr2 te2 to2 tr2 h1 h2 h3 h4 h5 h6
    unfold targetConfigHash configHashPayloadOf
    congr 1
    simp only
    congr 1 <;>
      first
      | exact mergeSort_perm_eq (h1.append h4)
      | exact mergeSort_perm_eq (h2.append h5)
      | exact mergeSort_perm_eq (h3.append h6)
      | rfl


/-- Witness for the amended C8: a matching fingerprint skips (empty
trace), and permuting the exclude/opt-in/collapse lists leaves the rule
fingerprint unchanged. -/
theorem C8_skip_decision_witness :
    (syncStep cexDigestC8 cexCfgC8 cexTargetC8 exSkipStateC8 "R" [] true true).1 = [] ∧
    targetConfigHash cexDigestC8
      { exCfgC8sort with
        defaults := { exCfgC8sort.defaults with
          exclude := ["b.txt", "a.txt"]
          optIn := ["o2", "o1"]
          replaceHistoryWithCurrent := ["r2", "r1"] } }
      { exTgtC8sort with
        exclude := ["d.txt", "c.txt"]
        optIn := []
        replaceHistoryWithCurrent := [] }
      = targetConfigHash cexDigestC8 exCfgC8sort exTgtC8sort := by
  constructor
  · exact (C8_skip_decision cexDigestC8 cexCfgC8 cexTargetC8 exSkipStateC8 "R" [] true true).2.1
      (by decide)
  · exact (C8_skip_decision cexDigestC8 exCfgC8sort exTgtC8sort exSkipStateC8 "R" [] true
      true).2.2.2 ["b.txt", "a.txt"] ["o2", "o1"] ["r2", "r1"] ["d.txt", "c.txt"] [] []
      (by decide) (by decide) (by decide) (by decide) (by decide) (by decide)

/-- C8 counterexample: with a stored failed state (non-empty
`last_error`) the skip condition is false, yet rule compilation fails (the
private username `a` is contained in the effective replacement `ab`), so
the driver performs no export, no filtering, no validation and no
publication although the claim's condition for "no work" does not hold —
the claimed equivalence is only an implication. -/
theorem C8_counterexample :
    skipTarget cexStateC8 "h1" (targetConfigHash cexDigestC8 cexCfgC8 cexTargetC8) = false ∧
    (syncStep cexDigestC8 cexCfgC8 cexTargetC8 cexStateC8 "h1" [] true true).2 = true ∧
    (syncStep cexDigestC8 cexCfgC8 cexTargetC8 cexStateC8 "h1" [] true true).1
      = [SyncAction.compileRules] ∧
    SyncAction.exportA ∉ (syncStep cexDigestC8 cexCfgC8 cexTargetC8 cexStateC8 "h1" [] true true).1 ∧
    SyncAction.filterA ∉ (syncStep cexDigestC8 cexCfgC8 cexTargetC8 cexStateC8 "h1" [] true true).1 ∧
    SyncAction.validateA ∉ (syncStep cexDigestC8 cexCfgC8 cexTargetC8 cexStateC8 "h1" [] true true).1 ∧
    SyncAction.publishA ∉ (syncStep cexDigestC8 cexCfgC8 cexTargetC8 cexStateC8 "h1" [] true true).1 := by
  refine ⟨by decide, by decide, by decide, by decide, by decide, by decide, by decide⟩

/-- C4: for history-collapse paths, `emitSyntheticBlobs` emits one synthetic
blob per path with content recorded at HEAD, under a fresh mark drawn from the
range starting at 900000000, and records the mark in `replaceHistoryMarks`; a
path with no recorded content gets no mark in a fresh filter; `filterOps`
rewrites the first `M` operation on such a path in stream order to reference
the synthetic mark with the mode carried over, drops every subsequent `M`
(seen) and every `M` without a mark, and drops every `D` on a collapse path;
and `filterRecords` emits the synthetic blobs before the first commit's
output. -/
theorem C4_history_collapse (st : FState) :
    (∀ f cnt, f ∈ st.rules.GetReplaceHistoryFiles →
      st.rules.GetReplaceHistoryContent f = some cnt →
      900000000 ≤ st.nextSyntheticMark →
      ∃ n, 900000000 ≤ n ∧
        lookupA (emitSyntheticBlobs st).2.replaceHistoryMarks f = some (mkMark n) ∧
        OutRec.synthBlob (mkMark n) cnt ∈ (emitSyntheticBlobs st).1) ∧
    ((emitSyntheticBlobs st).1.length
      = (st.rules.GetReplaceHistoryFiles.filter fun f =>
          (st.rules.GetReplaceHistoryContent f).isSome).length) ∧
    (∀ f, st.rules.GetReplaceHistoryContent f = none →
      lookupA (emitSyntheticBlobs (NewExportFilter st.rules)).2.replaceHistoryMarks f = none) ∧
    (∀ mode dataref path m rest,
      st.rules.ShouldExclude path = false →
      st.rules.ShouldExclude (trimPre "./".toList (st.rules.RewriteString path)) = false →
      st.rules.ShouldReplaceHistory (normPath (trimPre "./".toList (st.rules.RewriteString path))) = true →
      lookupA st.replaceHistoryMarks (normPath (trimPre "./".toList (st.rules.RewriteString path))) = some m →
      st.replaceHistorySeenFiles.contains (normPath (trimPre "./".toList (st.rules.RewriteString path))) = false →
      filterOps st (FileOp.M mode dataref path :: rest)
        = Except.map
            (fun r => (FileOp.M mode m (trimPre "./".toList (st.rules.RewriteString path)) :: r.1, r.2.1 + 1, r.2.2))
            (filterOps { st with replaceHistorySeenFiles := normPath (trimPre "./".toList (st.rules.RewriteString path)) :: st.replaceHistorySeenFiles } rest)) ∧
    (∀ mode dataref path m rest,
      st.rules.ShouldExclude path = false →
      st.rules.ShouldExclude (trimPre "./".toList (st.rules.RewriteString path)) = false →
      st.rules.ShouldReplaceHistory (normPath (trimPre "./".toList (st.rules.RewriteString path))) = true →
      lookupA st.replaceHistoryMarks (normPath (trimPre "./".toList (st.rules.RewriteString path))) = some m →
      st.replaceHistorySeenFiles.contains (normPath (trimPre "./".toList (st.rules.RewriteString path))) = true →
      filterOps st (FileOp.M mode dataref path :: rest) = filterOps st rest) ∧
    (∀ mode dataref path rest,
      st.rules.ShouldExclude path = false →
      st.rules.ShouldExclude (trimPre "./".toList (st.rules.RewriteString path)) = false →
      st.rules.ShouldReplaceHistory (normPath (trimPre "./".toList (st.rules.RewriteString path))) = true →
      lookupA st.replaceHistoryMarks (normPath (trimPre "./".toList (st.rules.RewriteString path))) = none →
      filterOps st (FileOp.M mode dataref path :: rest) = filterOps st rest) ∧
    (∀ path rest,
      st.rules.ShouldExclude path = false →
      st.rules.ShouldExclude (st.rules.RewriteString path) = false →
      st.rules.ShouldReplaceHistory (normPath (st.rules.RewriteString path)) = true →
      filterOps st (FileOp.D path :: rest) = filterOps st rest) ∧
    (∀ c rest, st.syntheticBlobsEmitted = false →
      filterRecords st (Rec.commit c :: rest)
        = (handleCommitEmit { (emitSyntheticBlobs st).2 with syntheticBlobsEmitted := true } c).bind
            (fun co => (filterRecords co.2 rest).bind
              (fun ro => Except.ok ((emitSyntheticBlobs st).1 ++ co.1 ++ ro.1, ro.2)))) := by
  refine ⟨?_, ?_, ?_, ?_, ?_, ?_, ?_, ?_⟩
  · intro f cnt hf hc hctr
    exact esb_mem _ st f cnt hf hc hctr
  · exact esb_count _ st
  · intro f hf
    have h := esb_none ((NewExportFilter st.rules).rules.GetReplaceHistoryFiles)
      (NewExportFilter st.rules) f hf
    rw [emitSyntheticBlobs, h]
    rfl
  · intro mode dataref path m rest h1 h2 h3 h4 h5
    exact fo_M_first st mode dataref path m rest h1 h2 h3 h4 h5
  · intro mode dataref path m rest h1 h2 h3 h4 h5
    exact fo_M_seen st mode dataref path m rest h1 h2 h3 h4 h5
  · intro mode dataref path rest h1 h2 h3 h4
    exact fo_M_nomark st mode dataref path rest h1 h2 h3 h4
  · intro path rest h1 h2 h3
    exact fo_D_collapse st path rest h1 h2 h3
  · intro c rest h
    exact fr_first_commit st c rest h

unseal replaceCI matchSeg classRanges in
/-- Concrete run of `C4_history_collapse` on the `LICENSE` collapse scenario. -/
theorem C4_history_collapse_witness :
    (∃ n, 900000000 ≤ n ∧
      lookupA (emitSyntheticBlobs exStateC4).2.replaceHistoryMarks "LICENSE".toList
        = some (mkMark n) ∧
      OutRec.synthBlob (mkMark n) "(c) johndoe".toList ∈ (emitSyntheticBlobs exStateC4).1) ∧
    ((emitSyntheticBlobs exStateC4).1.length
      = (exStateC4.rules.GetReplaceHistoryFiles.filter fun f =>
          (exStateC4.rules.GetReplaceHistoryContent f).isSome).length) ∧
    lookupA (emitSyntheticBlobs (NewExportFilter exStateC4.rules)).2.replaceHistoryMarks
      "NOTICE".toList = none ∧
    filterOps exStateC4e [FileOp.M "100644".toList ":1".toList "LICENSE".toList]
      = Except.map
          (fun r => (FileOp.M "100644".toList (mkMark 900000000) (trimPre "./".toList (exStateC4e.rules.RewriteString "LICENSE".toList)) :: r.1, r.2.1 + 1, r.2.2))
          (filterOps exStateC4s []) ∧
    filterOps exStateC4s [FileOp.M "100644".toList ":1".toList "LICENSE".toList]
      = filterOps exStateC4s [] ∧
    filterOps exStateC4 [FileOp.M "100644".toList ":1".toList "LICENSE".toList]
      = filterOps exStateC4 [] ∧
    filterOps exStateC4 [FileOp.D "LICENSE".toList] = filterOps exStateC4 [] ∧
    filterRecords exStateC4 [Rec.commit c4commit]
      = (handleCommitEmit { (emitSyntheticBlobs exStateC4).2 with syntheticBlobsEmitted := true } c4commit).bind
          (fun co => (filterRecords co.2 ([] : List Rec)).bind
            (fun ro => Except.ok ((emitSyntheticBlobs exStateC4).1 ++ co.1 ++ ro.1, ro.2))) := by
  refine ⟨?_, ?_, ?_, ?_, ?_, ?_, ?_, ?_⟩
  · exact (C4_history_collapse exStateC4).1 ("LICENSE".toList) ("(c) johndoe".toList)
      (by decide) (by decide) (by decide)
  · exact (C4_history_collapse exStateC4).2.1
  · exact (C4_history_collapse exStateC4).2.2.1 ("NOTICE".toList) (by decide)
  · exact (C4_history_collapse exStateC4e).2.2.2.1 ("100644".toList) (":1".toList)
      ("LICENSE".toList) (mkMark 900000000) [] (by decide) (by decide) (by decide)
      (by decide) (by decide)
  · exact (C4_history_collapse exStateC4s).2.2.2.2.1 ("100644".toList) (":1".toList)
      ("LICENSE".toList) (mkMark 900000000) [] (by decide) (by decide) (by decide)
      (by decide) (by decide)
  · exact (C4_history_collapse exStateC4).2.2.2.2.2.1 ("100644".toList) (":1".toList)
      ("LICENSE".toList) [] (by decide) (by decide) (by decide) (by decide)
  · exact (C4_history_collapse exStateC4).2.2.2.2.2.2.1 ("LICENSE".toList) []
      (by decide) (by decide) (by decide)
  · exact (C4_history_collapse exStateC4).2.2.2.2.2.2.2 c4commit [] (by decide)

end GitCopy
